import Mathlib

/-!
# Verification of the feature_flow dependency-graph execution engine

Shallow embedding of the core of the repository (src/core/nodes.py,
src/core/data_flow.py, src/core/engine.py, src/type/schema.py,
src/type/validator.py, src/core/json_helper.py) and proofs about it.

Modelling conventions:
* Python dicts are association lists (`List (String × α)`) with Python's
  insertion-order semantics: assignment to an existing key updates in place,
  assignment to a fresh key appends.
* Python values flowing through the engine are modelled by the inductive
  `PyValue`; a host object that `json.dumps` with `UniversalEncoder` cannot
  encode (a function, a cyclic structure, ...) is `PyValue.pyobject`.
* `datetime.now()` is an explicit timestamp argument (a `Nat` logical clock);
  stateful code threads the clock and bumps it at each sampling point, which
  models a strictly increasing wall clock.
* Python exceptions are `Except String` (the raised message) or an
  `Option String` component when the partially mutated state matters.
* The bodies of `exec`/`eval` on user logic strings are host-interpreter
  calls; they are parameters of the corresponding execute functions.
-/

namespace FeatureFlow

/-! ## Association-list dictionaries (Python `dict` semantics) -/

/-- Python `dict.get(k)`: first binding of `k` (Python dicts have unique keys; our
well-formedness invariants keep keys `Nodup`, where first-match agrees). -/
def alookup {α : Type} (l : List (String × α)) (k : String) : Option α :=
  (l.find? (fun p => p.1 = k)).map (fun p => p.2)

/-- Python `d[k] = v`: update in place if the key exists, else append. -/
def aset {α : Type} (l : List (String × α)) (k : String) (v : α) : List (String × α) :=
  if l.any (fun p => p.1 = k) then
    l.map (fun p => if p.1 = k then (k, v) else p)
  else l ++ [(k, v)]

/-- Python `del d[k]` (guarded by a membership test in the sources we model). -/
def aerase {α : Type} (l : List (String × α)) (k : String) : List (String × α) :=
  l.filter (fun p => ¬ p.1 = k)

/-- The key list of a dict, in insertion order. -/
def akeys {α : Type} (l : List (String × α)) : List String :=
  l.map (fun p => p.1)

/-- Python `k in d`. -/
def amem {α : Type} (l : List (String × α)) (k : String) : Bool :=
  l.any (fun p => p.1 = k)

/-! ## Python values -/

/-- Values the engine stores and passes around, as far as the modelled code
inspects them.  `dataframe` carries the pandas column names and dtype names
(the only parts `DataFrameSchema.validate` looks at); `pyobject` stands for
any host object that is not JSON-encodable by `UniversalEncoder`
(functions, cyclic references, ...). -/
inductive PyValue : Type where
  | vnone : PyValue
  | vbool (b : Bool) : PyValue
  | vint (n : Int) : PyValue
  | vfloat (q : Rat) : PyValue
  | vstr (s : String) : PyValue
  | vlist (xs : List PyValue) : PyValue
  | vdict (entries : List (String × PyValue)) : PyValue
  | dataframe (cols : List (String × String)) : PyValue
  | timestamp (iso : String) : PyValue
  | pyobject (descr : String) : PyValue

/-- Python `type(v).__name__`. -/
def pyTypeName : PyValue → String
  | PyValue.vnone => "NoneType"
  | PyValue.vbool _ => "bool"
  | PyValue.vint _ => "int"
  | PyValue.vfloat _ => "float"
  | PyValue.vstr _ => "str"
  | PyValue.vlist _ => "list"
  | PyValue.vdict _ => "dict"
  | PyValue.dataframe _ => "DataFrame"
  | PyValue.timestamp _ => "Timestamp"
  | PyValue.pyobject _ => "object"

mutual

/-- Whether `json.dumps(value, cls=UniversalEncoder)` succeeds (src/core/json_helper.py:
DataFrames, Timestamps and scalars are encodable; containers are encodable
iff their elements are; any other host object raises `TypeError`). -/
def serializable : PyValue → Bool
  | PyValue.vnone => true
  | PyValue.vbool _ => true
  | PyValue.vint _ => true
  | PyValue.vfloat _ => true
  | PyValue.vstr _ => true
  | PyValue.vlist xs => serializableList xs
  | PyValue.vdict es => serializableDict es
  | PyValue.dataframe _ => true
  | PyValue.timestamp _ => true
  | PyValue.pyobject _ => false

def serializableList : List PyValue → Bool
  | [] => true
  | x :: xs => serializable x && serializableList xs

def serializableDict : List (String × PyValue) → Bool
  | [] => true
  | e :: xs => serializable e.2 && serializableDict xs

end

/-! ## Python string helpers (structural, kernel-reducible) -/

/-- Python `c in s`. -/
def pyContains (s : String) (c : Char) : Bool := s.data.contains c

/-- Python `str.strip()` (whitespace on both ends). -/
def pyTrim (s : String) : String :=
  String.mk (((s.data.dropWhile Char.isWhitespace).reverse.dropWhile
    Char.isWhitespace).reverse)

/-- Python `s.startswith(pre)`. -/
def pyStartsWith (s pre : String) : Bool := pre.data.isPrefixOf s.data

/-- Python `s.lower()`. -/
def pyToLower (s : String) : String := String.mk (s.data.map Char.toLower)

/-- Helper of `pySplitOnChar`. -/
def splitOnCharAux (c : Char) : List Char → List Char → List String
  | [], acc => [String.mk acc.reverse]
  | x :: xs, acc =>
    if x = c then String.mk acc.reverse :: splitOnCharAux c xs []
    else splitOnCharAux c xs (x :: acc)

/-- Python `s.split(c)` for a single-character separator. -/
def pySplitOnChar (s : String) (c : Char) : List String := splitOnCharAux c s.data []

/-- Helper of `pySplitFirst`. -/
def splitFirstAux (c : Char) : List Char → List Char → List Char × List Char
  | [], acc => (acc.reverse, [])
  | x :: xs, acc => if x = c then (acc.reverse, xs) else splitFirstAux c xs (x :: acc)

/-- Python `s.split(c, 1)`: the text before the first separator, and the rest. -/
def pySplitFirst (s : String) (c : Char) : String × String :=
  let p := splitFirstAux c s.data []
  (String.mk p.1, String.mk p.2)

/-! ## Schema strings and validation (src/type/schema.py, src/type/validator.py) -/

/-- Python `normalize_type`: `TYPE_ALIASES.get(type_name.lower())`. -/
def normalizeType (type_name : String) : Option String :=
  let t := pyToLower type_name
  if t = "str" then some "string"
  else if t = "string" then some "string"
  else if t = "int" then some "int"
  else if t = "float" then some "double"
  else if t = "double" then some "double"
  else if t = "bool" then some "boolean"
  else if t = "boolean" then some "boolean"
  else Option.none

/-- A parsed schema: `ValueSchema` (scalar type name) or `DataFrameSchema`
(column name to normalized column type, in declaration order). -/
inductive PySchema : Type where
  | valueSchema (value_type : String) : PySchema
  | dataframeSchema (cols : List (String × String)) : PySchema

/-- Python `ValueSchema.validate` (note the Python subtyping quirks:
`isinstance(True, int)` and `isinstance(True, (int, float))` hold). -/
def valueSchemaValidate (value_type : String) (v : PyValue) : Bool :=
  if value_type = "None" then (match v with | PyValue.vnone => true | _ => false)
  else if value_type = "int" then
    (match v with | PyValue.vint _ => true | PyValue.vbool _ => true | _ => false)
  else if value_type = "double" then
    (match v with
     | PyValue.vint _ => true | PyValue.vfloat _ => true | PyValue.vbool _ => true
     | _ => false)
  else if value_type = "string" then (match v with | PyValue.vstr _ => true | _ => false)
  else if value_type = "boolean" then (match v with | PyValue.vbool _ => true | _ => false)
  else if value_type = "dict" then (match v with | PyValue.vdict _ => true | _ => false)
  else if value_type = "list" then (match v with | PyValue.vlist _ => true | _ => false)
  else false

/-- Python `DataFrameSchema._validate_column_type` on a pandas dtype name. -/
def dtypeMatches (expected_type : String) (dtype : String) : Bool :=
  if expected_type = "string" then dtype = "object" || dtype = "string"
  else if expected_type = "int" then
    dtype = "int64" || dtype = "int32" || dtype = "int16" || dtype = "int8"
  else if expected_type = "double" then
    dtype = "float64" || dtype = "float32" || dtype = "float16"
  else if expected_type = "boolean" then dtype = "bool"
  else false

/-- Python `DataFrameSchema.validate`: the value must be a DataFrame whose
column-name set equals the schema column set and whose dtypes match
column-wise (`self._column_dict` collapses duplicate schema columns, last
one winning, like the Python dict comprehension). -/
def dataFrameSchemaValidate (cols : List (String × String)) (v : PyValue) : Bool :=
  match v with
  | PyValue.dataframe dfCols =>
    let columnDict := cols.foldl (fun d c => aset d c.1 c.2) []
    let dfNames := dfCols.map (fun p => p.1)
    (dfNames.all (fun n => amem columnDict n)
      && (akeys columnDict).all (fun n => dfNames.contains n))
    && columnDict.all (fun c =>
         match alookup dfCols c.1 with
         | some dtype => dtypeMatches c.2 dtype
         | Option.none => false)
  | _ => false

/-- Python `Schema.validate` dispatch. -/
def schemaValidate : PySchema → PyValue → Bool
  | PySchema.valueSchema t, v => valueSchemaValidate t v
  | PySchema.dataframeSchema cols, v => dataFrameSchemaValidate cols v

/-- Python `ColumnSchema` construction from one `name:type` chunk of a
DataFrame schema string (raises on a malformed chunk or unknown type). -/
def parseColumnDef (col_def : String) : Except String (String × String) :=
  let c := pyTrim col_def
  if ¬ pyContains c ':' then Except.error ("列定义格式错误: " ++ c)
  else
    let parts := pySplitFirst c ':'
    let nm := pyTrim parts.1
    let ty := pyTrim parts.2
    if nm = "" then Except.error ("列名不能为空: " ++ c)
    else
      match normalizeType ty with
      | some t => Except.ok (nm, t)
      | Option.none => Except.error ("不支持的类型: " ++ ty)

/-- Python `DataFrameSchema.from_string`. -/
def dataFrameSchemaFromString (schema_str : String) : Except String (List (String × String)) :=
  if pyTrim schema_str = "" then Except.error "Schema字符串不能为空"
  else (pySplitOnChar schema_str ',').foldlM
    (fun acc col_def => (parseColumnDef col_def).map (fun c => acc ++ [c])) []

/-- Python `SchemaValidator.parse_schema` as used by
`DataValidator.from_string`: empty strings raise, a string containing a
colon parses as a DataFrame schema, anything else as a `ValueSchema`
(whose constructor raises on an unknown scalar type name). -/
def parseSchema (schema_str : String) : Except String PySchema :=
  if pyTrim schema_str = "" then Except.error "Schema字符串不能为空"
  else if pyContains schema_str ':' then
    (dataFrameSchemaFromString schema_str).map PySchema.dataframeSchema
  else
    let t := pyTrim schema_str
    if t = "int" || t = "double" || t = "string" || t = "boolean"
        || t = "dict" || t = "list" || t = "None" then
      Except.ok (PySchema.valueSchema t)
    else Except.error ("不支持的值类型: " ++ t)

/-- Python `DataValidator.from_string(schema_str).validate(v)`: construction
may raise (propagated); `validate` itself swallows internal errors. -/
def dataValidatorFromStringValidate (schema_str : String) (v : PyValue) : Except String Bool :=
  (parseSchema schema_str).map (fun sc => schemaValidate sc v)

/-! ## Node model (src/core/nodes.py) -/

/-- The outcome record of one node execution attempt, with the Python
constructor defaults (`data=None`, `status="executed"`, missing
`node_type=None`). -/
structure NodeResult : Type where
  success : Bool
  data : PyValue := PyValue.vnone
  text_output : Option String := Option.none
  error : Option String := Option.none
  status : String := "executed"
  node_type : Option String := Option.none

/-- The four node classes of the simplified engine. -/
inductive NodeKind : Type where
  | start : NodeKind
  | logic : NodeKind
  | gate : NodeKind
  | collection : NodeKind
deriving DecidableEq, Repr

/-- Python `node.__class__.__name__`. -/
def NodeKind.className : NodeKind → String
  | NodeKind.start => "StartNode"
  | NodeKind.logic => "LogicNode"
  | NodeKind.gate => "GateNode"
  | NodeKind.collection => "CollectionNode"

/-- Python `Node._get_node_type`, the `node_type` discriminator tag. -/
def NodeKind.tag : NodeKind → String
  | NodeKind.start => "start"
  | NodeKind.logic => "logic"
  | NodeKind.gate => "gate"
  | NodeKind.collection => "collection"

/-- A flow-context entry: `(value, source_node_name, last_update_time)`. -/
abbrev FlowEntry := PyValue × String × Nat

/-- A flow-context: `variable_name -> (value, source, time)`, dict-ordered. -/
abbrev FlowContext := List (String × FlowEntry)

/-- A local-variable environment (`variable name -> value`). -/
abbrev Env := List (String × PyValue)

/-- The mutable state of a node object.  `condition` defaults to the literal
"False" (the `GateNode` constructor replaces `None` by "False");
`should_continue` starts out `False`; `collected_data` is the
`CollectionNode` field. -/
structure PyNode : Type where
  name : String
  kind : NodeKind
  tracked_variables : List String := []
  expected_input_schema : List (String × String) := []
  flow_context : FlowContext := []
  logic_code : Option String := Option.none
  condition : String := "False"
  should_continue : Bool := false
  collected_data : List (String × Env) := []

/-- Python `get_flow_context_values`: values without metadata, dict order. -/
def flowValues (fc : FlowContext) : Env :=
  fc.map (fun e => (e.1, e.2.1))

/-- Python truthiness of an optional string (`if not self.logic_code`). -/
def pyStrTruthy : Option String → Bool
  | Option.none => false
  | some s => ¬ s = ""

/-- Python `Node.update_flow_context` with the `datetime.now()` sample made
an explicit argument.  The serializability check comes first, so a raise
leaves the flow-context untouched; an existing entry is overwritten only
when the new time is strictly later; a missing variable is inserted. -/
def update_flow_context (node : PyNode) (variable_name : String) (value : PyValue)
    (source_node : Option String) (current_time : Nat) : Except String PyNode :=
  let source_node_name := source_node.getD node.name
  if ¬ serializable value then
    Except.error ("变量 " ++ variable_name ++ " 无法序列化为JSON")
  else
    match alookup node.flow_context variable_name with
    | some entry =>
      if entry.2.2 < current_time then
        Except.ok { node with
          flow_context := aset node.flow_context variable_name
            (value, source_node_name, current_time) }
      else Except.ok node
    | Option.none =>
      Except.ok { node with
        flow_context := node.flow_context
          ++ [(variable_name, (value, source_node_name, current_time))] }

/-- The message of the `ValueError` raised by
`Node.merge_flow_context_from_inputs` on a failed schema check. -/
def validationFailMsg (var_name schema_str type_name : String) : String :=
  "Input variable " ++ var_name ++ " validation failed. Expected: " ++ schema_str
    ++ ", Got: " ++ type_name

/-- An upstream input slot: either a handle to an upstream node object
(which has a `flow_context`) or a plain context value. -/
inductive InputVal : Type where
  | nodeRef (node_name : String) (fc : FlowContext) : InputVal
  | ctxval (v : PyValue) : InputVal

/-- The `inputs` dict of a node, as populated by `Engine._get_node_inputs`. -/
abbrev Inputs := List (String × InputVal)

/-- One upstream flow-context being folded into `node` by
`merge_flow_context_from_inputs`: schema-checked variables are validated
first (a failure raises), `CollectionNode`s skip schema-listed variables
entirely, everything else is inherited through `update_flow_context` with a
fresh timestamp.  Returns the partially updated state plus the raised
message, if any. -/
def mergeEntries (node : PyNode) (clock : Nat) :
    FlowContext → (PyNode × Nat) × Option String
  | [] => ((node, clock), Option.none)
  | (var_name, var_value, var_node, _) :: rest =>
    match alookup node.expected_input_schema var_name with
    | some schema_str =>
      if node.kind = NodeKind.collection then mergeEntries node clock rest
      else
        match dataValidatorFromStringValidate schema_str var_value with
        | Except.error e => ((node, clock), some e)
        | Except.ok ok =>
          if ok then
            match update_flow_context node var_name var_value (some var_node) clock with
            | Except.error e => ((node, clock), some e)
            | Except.ok n2 => mergeEntries n2 (clock + 1) rest
          else
            ((node, clock), some (validationFailMsg var_name schema_str (pyTypeName var_value)))
    | Option.none =>
      match update_flow_context node var_name var_value (some var_node) clock with
      | Except.error e => ((node, clock), some e)
      | Except.ok n2 => mergeEntries n2 (clock + 1) rest

/-- Python `Node.merge_flow_context_from_inputs`: fold every upstream node
handle (inputs named `__node_...`) into this node, in input order. -/
def merge_flow_context_from_inputs (node : PyNode) (clock : Nat) :
    Inputs → (PyNode × Nat) × Option String
  | [] => ((node, clock), Option.none)
  | (input_name, input_data) :: rest =>
    if pyStartsWith input_name "__node_" then
      match input_data with
      | InputVal.nodeRef _ fc =>
        match mergeEntries node clock fc with
        | ((n2, c2), Option.none) => merge_flow_context_from_inputs n2 c2 rest
        | (st, some e) => (st, some e)
      | InputVal.ctxval _ => merge_flow_context_from_inputs node clock rest
    else merge_flow_context_from_inputs node clock rest

/-! ## Node execution (src/core/nodes.py) -/

/-- The abstract host-interpreter call for a Logic/Collection body:
given the inputs, the run context and data visible to the code, produce the
post-`exec` local variables (or raise). -/
abbrev LogicBody := Inputs → Env → Env → Except String Env

/-- The abstract host-interpreter call for a Gate condition (`eval`),
collapsed to its truthiness. -/
abbrev GateCond := Inputs → Env → Env → Except String Bool

/-- The abstract host-interpreter call for a Collection body, which
additionally sees the reserved `collection` mapping. -/
abbrev CollectionBody := Inputs → Env → List (String × Env) → Except String Env

/-- The `NodeResult` built by the `except` arms inside the node execute
methods: `success=False`, the exception text, `status="failed"`, tagged. -/
def failedResult (e : String) (tag : String) : NodeResult :=
  { success := false, error := some e, status := "failed", node_type := some tag }

/-- The tracked-variable publication loop at the end of
`LogicNode.execute`/`CollectionNode.execute`: each tracked name present in
the post-execution locals is published to the flow-context (source = the
node itself, fresh timestamp); a raise stops the loop, keeping what was
already published. -/
def publishTracked (node : PyNode) (clock : Nat) (locals : Env) :
    List String → (PyNode × Nat) × Option String
  | [] => ((node, clock), Option.none)
  | var :: rest =>
    match alookup locals var with
    | some v =>
      match update_flow_context node var v Option.none clock with
      | Except.error e => ((node, clock), some e)
      | Except.ok n2 => publishTracked n2 (clock + 1) locals rest
    | Option.none => publishTracked node clock locals rest

/-- The result-payload comprehension
`{var: output_data[var] for var in self.tracked_variables}`: a tracked
variable missing from the flow-context raises `KeyError` (modelled as the
variable name). -/
def trackedDataLoop (values : Env) : List String → Env → Except String Env
  | [], acc => Except.ok acc
  | var :: rest, acc =>
    match alookup values var with
    | some v => trackedDataLoop values rest (aset acc var v)
    | Option.none => Except.error var

/-- Payload of a successful Logic/Collection result: the tracked subset of
the flow-context values. -/
def trackedData (node : PyNode) : Except String Env :=
  trackedDataLoop (flowValues node.flow_context) node.tracked_variables []

/-- Python `StartNode.execute`: always succeeds with an empty payload. -/
def startNodeExecute (node : PyNode) : NodeResult :=
  { success := true, data := PyValue.vdict [], node_type := some node.kind.tag }

/-- Python `LogicNode.execute`.  The missing-code check happens first; the
flow-context inheritance runs OUTSIDE the `try` block, so its exceptions
escape the method (the `Except.error` arm of the returned result); body,
publication and payload-building errors are caught inside and produce a
`failed` result.  Captured stdout is not modelled. -/
def logicNodeExecute (node : PyNode) (inputs : Inputs) (context : Env)
    (body : LogicBody) (clock : Nat) : (PyNode × Nat) × Except String NodeResult :=
  if ¬ pyStrTruthy node.logic_code then
    ((node, clock), Except.ok { success := false, error := some "No logic code provided",
                                node_type := some node.kind.tag })
  else
    match merge_flow_context_from_inputs node clock inputs with
    | (st, some e) => (st, Except.error e)
    | ((n1, c1), Option.none) =>
      match body inputs context (flowValues n1.flow_context) with
      | Except.error e => ((n1, c1), Except.ok (failedResult e n1.kind.tag))
      | Except.ok locals =>
        match publishTracked n1 c1 locals n1.tracked_variables with
        | ((n2, c2), some e) => ((n2, c2), Except.ok (failedResult e n2.kind.tag))
        | ((n2, c2), Option.none) =>
          match trackedData n2 with
          | Except.error e => ((n2, c2), Except.ok (failedResult e n2.kind.tag))
          | Except.ok out =>
            ((n2, c2), Except.ok { success := true, data := PyValue.vdict out,
                                   node_type := some n2.kind.tag })

/-- Python `GateNode.execute`.  Inheritance again runs outside the `try`;
on successful evaluation the boolean lands both in the node state
(`should_continue`) and in the result payload; an evaluation error leaves
`should_continue` unchanged and yields a `failed` result. -/
def gateNodeExecute (node : PyNode) (inputs : Inputs) (context : Env)
    (cond : GateCond) (clock : Nat) : (PyNode × Nat) × Except String NodeResult :=
  if node.condition = "" then
    ((node, clock), Except.ok { success := false, error := some "No condition provided",
                                node_type := some node.kind.tag })
  else
    match merge_flow_context_from_inputs node clock inputs with
    | (st, some e) => (st, Except.error e)
    | ((n1, c1), Option.none) =>
      match cond inputs context (flowValues n1.flow_context) with
      | Except.error e => ((n1, c1), Except.ok (failedResult e n1.kind.tag))
      | Except.ok b =>
        (({ n1 with should_continue := b }, c1),
         Except.ok { success := true,
                     data := PyValue.vdict [("should_continue", PyValue.vbool b)],
                     node_type := some n1.kind.tag })

/-- The per-ancestor schema filter inside `CollectionNode.execute`: keep the
flow-context variables that appear in `expected_input_schema` and pass
their type check (validator construction may raise). -/
def schemaFilterLoop (schema : List (String × String)) : Env → Env → Except String Env
  | [], acc => Except.ok acc
  | (var, v) :: rest, acc =>
    match alookup schema var with
    | some schema_str =>
      match dataValidatorFromStringValidate schema_str v with
      | Except.error e => Except.error e
      | Except.ok ok =>
        if ok then schemaFilterLoop schema rest (aset acc var v)
        else schemaFilterLoop schema rest acc
    | Option.none => schemaFilterLoop schema rest acc

/-- The collection loop of `CollectionNode.execute`: for every input that is
not a context key and is an upstream node handle with a NONEMPTY
flow-context, keep the schema-filtered variables if and only if their count
equals the schema size (all-or-nothing per ancestor). -/
def collectLoop (schema : List (String × String)) (context : Env) :
    Inputs → List (String × Env) → Except String (List (String × Env))
  | [], acc => Except.ok acc
  | (input_name, input_data) :: rest, acc =>
    if amem context input_name then collectLoop schema context rest acc
    else if pyStartsWith input_name "__node_" then
      match input_data with
      | InputVal.nodeRef nm fc =>
        let fcv := flowValues fc
        if fcv.isEmpty then collectLoop schema context rest acc
        else
          match schemaFilterLoop schema fcv [] with
          | Except.error e => Except.error e
          | Except.ok schema_values =>
            if schema_values.length = schema.length then
              collectLoop schema context rest (aset acc nm schema_values)
            else collectLoop schema context rest acc
      | InputVal.ctxval _ => collectLoop schema context rest acc
    else collectLoop schema context rest acc

/-- Python `CollectionNode.execute`.  The whole method body sits inside a
`try`, so every raise (inheritance included) is converted to a `failed`
result with the correct tag.  Without a `logic_code` the payload is the raw
collected per-ancestor mapping. -/
def collectionNodeExecute (node : PyNode) (inputs : Inputs) (context : Env)
    (body : CollectionBody) (clock : Nat) : (PyNode × Nat) × NodeResult :=
  match merge_flow_context_from_inputs node clock inputs with
  | ((n1, c1), some e) => ((n1, c1), failedResult e node.kind.tag)
  | ((n1, c1), Option.none) =>
    match collectLoop n1.expected_input_schema context inputs [] with
    | Except.error e => ((n1, c1), failedResult e n1.kind.tag)
    | Except.ok collected =>
      let n2 := { n1 with collected_data := collected }
      if pyStrTruthy n2.logic_code then
        match body inputs context collected with
        | Except.error e => ((n2, c1), failedResult e n2.kind.tag)
        | Except.ok locals =>
          match publishTracked n2 c1 locals n2.tracked_variables with
          | ((n3, c3), some e) => ((n3, c3), failedResult e n3.kind.tag)
          | ((n3, c3), Option.none) =>
            match trackedData n3 with
            | Except.error e => ((n3, c3), failedResult e n3.kind.tag)
            | Except.ok out =>
              ((n3, c3), { success := true, data := PyValue.vdict out,
                           node_type := some n3.kind.tag })
      else
        let payload := PyValue.vdict (collected.map (fun p => (p.1, PyValue.vdict p.2)))
        ((n2, c1), { success := true,
                     data := PyValue.vdict [("collected_data", payload)],
                     node_type := some n2.kind.tag })

/-! ## Dependency graph (src/core/data_flow.py) -/

/-- The node registry and the dependency adjacency `target -> sources`. -/
structure DataFlow : Type where
  nodes : List (String × PyNode) := []
  dependencies : List (String × List String) := []

/-- Python `DataFlow.add_node`: register by name and (re)set the node entry
in the dependency map to the empty list. -/
def DataFlow.add_node (df : DataFlow) (node : PyNode) : DataFlow :=
  { nodes := aset df.nodes node.name node,
    dependencies := aset df.dependencies node.name [] }

/-- Python `DataFlow.add_dependency`: record that `target_node` depends on
`source_node`; raises when either endpoint is unregistered; idempotent. -/
def DataFlow.add_dependency (df : DataFlow) (source_node target_node : String) :
    Except String DataFlow :=
  if ¬ (amem df.nodes source_node && amem df.nodes target_node) then
    Except.error ("Node not found: " ++ source_node ++ " or " ++ target_node)
  else
    let deps :=
      if amem df.dependencies target_node then df.dependencies
      else df.dependencies ++ [(target_node, [])]
    let cur := (alookup deps target_node).getD []
    if source_node ∈ cur then Except.ok { df with dependencies := deps }
    else Except.ok { df with dependencies := aset deps target_node (cur ++ [source_node]) }

/-- Python `DataFlow.get_node_dependencies`:
`self.dependencies.get(node_name, [])`. -/
def depsOf (dependencies : List (String × List String)) (n : String) : List String :=
  (alookup dependencies n).getD []

/-- Python `DataFlow.remove_node`: drop the node, its own dependency entry,
and its name from every other source list (`list.remove`: first
occurrence). -/
def DataFlow.remove_node (df : DataFlow) (node_name : String) : DataFlow :=
  { nodes := aerase df.nodes node_name,
    dependencies := (aerase df.dependencies node_name).map
      (fun p => (p.1, p.2.erase node_name)) }

/-- Python `DataFlow.remove_dependency`. -/
def DataFlow.remove_dependency (df : DataFlow) (source_node target_node : String) :
    DataFlow :=
  match alookup df.dependencies target_node with
  | some cur =>
    if source_node ∈ cur then
      { df with dependencies := aset df.dependencies target_node (cur.erase source_node) }
    else df
  | Option.none => df

/-- The inner loop of Kahn's algorithm over `self.dependencies.items()`:
after removing `current`, decrement the in-degree of every target whose
source list contains it, enqueueing targets whose degree reaches zero. -/
def processChildren (current : String) :
    List (String × List String) → (String → Int) → List String →
    (String → Int) × List String
  | [], deg, queue => (deg, queue)
  | (child, srcs) :: rest, deg, queue =>
    if current ∈ srcs then
      let d := deg child - 1
      let deg2 : String → Int := fun x => if x = child then d else deg x
      if d = 0 then processChildren current rest deg2 (queue ++ [child])
      else processChildren current rest deg2 queue
    else processChildren current rest deg queue

/-- The `while queue` loop of `DataFlow._topological_sort`, with fuel (one
unit per pop; `nodes.length` units suffice, see `kahnLoop_post`). -/
def kahnLoop (dependencies : List (String × List String)) :
    Nat → (String → Int) → List String → List String → List String
  | 0, _, _, result => result
  | _ + 1, _, [], result => result
  | fuel + 1, deg, current :: rest, result =>
    let s := processChildren current dependencies deg rest
    kahnLoop dependencies fuel s.1 s.2 (result ++ [current])

/-- Python `DataFlow._topological_sort` (Kahn): in-degree of a node is the
length of its source list; the initial queue holds the zero-degree nodes in
registration order; a result shorter than the registry raises. -/
def topological_sort (nodes : List String) (dependencies : List (String × List String)) :
    Except String (List String) :=
  let inDeg : String → Int := fun n => ((depsOf dependencies n).length : Int)
  let queue := nodes.filter (fun n => inDeg n = 0)
  let result := kahnLoop dependencies nodes.length inDeg queue []
  if result.length = nodes.length then Except.ok result
  else Except.error "Circular dependency detected"

/-- Python `DataFlow.get_execution_order`. -/
def DataFlow.get_execution_order (df : DataFlow) : Except String (List String) :=
  topological_sort (akeys df.nodes) df.dependencies

/-- The forward breadth-first traversal of `DataFlow.validate_structure`
(following `node -> nodes that depend on it` edges), with fuel.  A visited
`current` is skipped; a fresh one is recorded and its dependents enqueued. -/
def bfsLoop (dependencies : List (String × List String)) :
    Nat → List String → List String → List String
  | 0, _, reachable => reachable
  | _ + 1, [], reachable => reachable
  | fuel + 1, current :: rest, reachable =>
    if current ∈ reachable then bfsLoop dependencies fuel rest reachable
    else
      let children := (dependencies.filter (fun p => current ∈ p.2)).map (fun p => p.1)
      bfsLoop dependencies fuel (rest ++ children) (reachable ++ [current])

/-- Enough fuel for `bfsLoop` on any input (see `bfsLoop_post`). -/
def bfsFuel (dependencies : List (String × List String)) : Nat :=
  (dependencies.length + 1) * (dependencies.length + 1) + 1

/-- The unreachable-node violation message. -/
def unreachableMsg (n : String) : String :=
  "Unreachable node (not connected to start_node): " ++ n

/-- Python `DataFlow.validate_structure`: requires `start_node`; reports
every node the forward BFS from `start_node` does not visit; then appends
the cycle error of `_topological_sort`, if any; returns the aggregate. -/
def DataFlow.validate_structure (df : DataFlow) : Bool × List String :=
  if ¬ amem df.nodes "start_node" then (false, ["Missing start_node"])
  else
    let reachable := bfsLoop df.dependencies (bfsFuel df.dependencies) ["start_node"] []
    let errs1 := ((akeys df.nodes).filter (fun n => ¬ n ∈ reachable)).map unreachableMsg
    let errs2 :=
      match topological_sort (akeys df.nodes) df.dependencies with
      | Except.ok _ => []
      | Except.error e => [e]
    let errors := errs1 ++ errs2
    (errors.isEmpty, errors)

/-! ## Engine orchestration (src/core/engine.py) -/

/-- Engine run state.  `job_date`/`placeholders` only feed the template
expansion, which is folded into the abstract interpreter calls, so they are
not tracked here; `context` is the merged run context built in step 1 of
`execute`. -/
structure EngineState : Type where
  name : String := "default"
  data_flow : DataFlow := {}
  context : Env := []
  execution_results : List (String × NodeResult) := []

/-- The implicit dependency-free root every engine starts with. -/
def startNode : PyNode :=
  { name := "start_node", kind := NodeKind.start }

/-- Python `RuleEngine.__init__`: a fresh engine with only `start_node`. -/
def RuleEngine.new (name : String) : EngineState :=
  { name := name, data_flow := DataFlow.add_node {} startNode }

/-- The host-interpreter calls (`exec`/`eval` over the node code strings,
template expansion included), one per node name. -/
structure HostInterp : Type where
  logicBody : String → LogicBody
  gateCond : String → GateCond
  collectionBody : String → CollectionBody

/-- The first admission loop of `RuleEngine._execute_node`: scan the
dependencies in order and return the FIRST one that is a Gate with a
recorded successful result and `should_continue == False` (the early
`return` that blocks the node).  A missing registry entry models the
`KeyError` the dict subscript would raise. -/
def gateCheckLoop (st : EngineState) : List String → Except String (Option String)
  | [] => Except.ok Option.none
  | dep :: rest =>
    match alookup st.data_flow.nodes dep with
    | Option.none => Except.error dep
    | some dn =>
      if dn.kind = NodeKind.gate then
        match alookup st.execution_results dep with
        | some r =>
          if r.success && ¬ dn.should_continue then Except.ok (some dep)
          else gateCheckLoop st rest
        | Option.none => gateCheckLoop st rest
      else gateCheckLoop st rest

/-- The second admission check of `RuleEngine._execute_node`: no dependency
has a recorded successful result. -/
def allDepsFailed (st : EngineState) (deps : List String) : Bool :=
  deps.all (fun dep =>
    match alookup st.execution_results dep with
    | some r => ¬ r.success
    | Option.none => true)

/-- Python `RuleEngine._get_node_inputs` dependency scan: skip dependencies
with a recorded unsuccessful result and Gates whose `should_continue` is
false (the CURRENT node attribute, whether or not the gate ran); pass a
handle to every other dependency. -/
def getNodeInputsLoop (st : EngineState) : List String → Inputs → Except String Inputs
  | [], acc => Except.ok acc
  | dep :: rest, acc =>
    match alookup st.data_flow.nodes dep with
    | Option.none => Except.error dep
    | some dn =>
      let failed : Bool :=
        match alookup st.execution_results dep with
        | some r => !r.success
        | Option.none => false
      if failed then getNodeInputsLoop st rest acc
      else if dn.kind = NodeKind.gate && ¬ dn.should_continue then
        getNodeInputsLoop st rest acc
      else
        getNodeInputsLoop st rest
          (aset acc ("__node_" ++ dep) (InputVal.nodeRef dn.name dn.flow_context))

/-- Python `RuleEngine._get_node_inputs`: the dependency handles, then
`inputs.update(self.context)`. -/
def get_node_inputs (st : EngineState) (node_name : String) : Except String Inputs :=
  (getNodeInputsLoop st (depsOf st.data_flow.dependencies node_name) []).map
    (fun acc => st.context.foldl (fun a p => aset a p.1 (InputVal.ctxval p.2)) acc)

/-- Store an updated node object back in the registry. -/
def setNode (st : EngineState) (n : PyNode) : EngineState :=
  { st with data_flow := { st.data_flow with nodes := aset st.data_flow.nodes n.name n } }

/-- The `status="blocked"` result built inside `RuleEngine._execute_node`
(note: `node_type` stays `None` on this path). -/
def blockedResult (e : String) : NodeResult :=
  { success := false, error := some e, status := "blocked" }

/-- Python `RuleEngine._execute_node`: the early-returning gate check, then
the all-dependencies-failed check, then input gathering and the node
dispatch.  `Except.error` is an exception escaping `_execute_node` (caught
by the `execute` loop). -/
def executeNode (st : EngineState) (interp : HostInterp) (clock : Nat)
    (node_name : String) : (EngineState × Nat) × Except String NodeResult :=
  match alookup st.data_flow.nodes node_name with
  | Option.none => ((st, clock), Except.error node_name)
  | some node =>
    let deps := depsOf st.data_flow.dependencies node_name
    match gateCheckLoop st deps with
    | Except.error e => ((st, clock), Except.error e)
    | Except.ok (some gname) =>
      ((st, clock), Except.ok (blockedResult ("Execution blocked by gate node " ++ gname)))
    | Except.ok Option.none =>
      if !deps.isEmpty && allDepsFailed st deps then
        ((st, clock),
         Except.ok (blockedResult ("All dependencies failed or blocked for node " ++ node_name)))
      else
        match get_node_inputs st node_name with
        | Except.error e => ((st, clock), Except.error e)
        | Except.ok inputs =>
          match node.kind with
          | NodeKind.start => ((st, clock), Except.ok (startNodeExecute node))
          | NodeKind.logic =>
            let r := logicNodeExecute node inputs st.context (interp.logicBody node_name) clock
            ((setNode st r.1.1, r.1.2), r.2)
          | NodeKind.gate =>
            let r := gateNodeExecute node inputs st.context (interp.gateCond node_name) clock
            ((setNode st r.1.1, r.1.2), r.2)
          | NodeKind.collection =>
            let r := collectionNodeExecute node inputs st.context
              (interp.collectionBody node_name) clock
            ((setNode st r.1.1, r.1.2), Except.ok r.2)

/-- The per-node `try`/`except` loop of `RuleEngine.execute`: every node in
order gets exactly one entry written into `execution_results` (an escaped
exception becomes `NodeResult(success=False, error=str(e))`, all other
fields defaulted). -/
def engineRunLoop (interp : HostInterp) :
    List String → EngineState → Nat → EngineState × Nat
  | [], st, c => (st, c)
  | node_name :: rest, st, c =>
    let step := executeNode st interp c node_name
    let res :=
      match step.2 with
      | Except.ok r => r
      | Except.error e => { success := false, error := some e }
    engineRunLoop interp rest
      { step.1.1 with
        execution_results := aset step.1.1.execution_results node_name res }
      step.1.2

/-- Python `RuleEngine.execute`: store the merged run context, validate the
structure (raising with the violation list if invalid — NOTE: the previous
`execution_results` are NOT cleared), compute the topological order, then
run the loop. -/
def RuleEngine.execute (st : EngineState) (interp : HostInterp) (context : Env)
    (clock : Nat) : Except String (EngineState × Nat) :=
  let st1 := { st with context := context }
  let v := DataFlow.validate_structure st1.data_flow
  if ¬ v.1 then
    Except.error ("Rule engine validation failed: " ++ String.intercalate "; " v.2)
  else
    match DataFlow.get_execution_order st1.data_flow with
    | Except.error e => Except.error e
    | Except.ok order => Except.ok (engineRunLoop interp order st1 clock)

/-! ## JSON export / import (src/core/engine.py) -/

/-- One serialized node: the four common shapes plus the kind-specific
field.  An `Option.none` in `logic_code`/`condition` stands for a missing
key or a JSON `null` (the import treats both identically). -/
structure NodeConfig : Type where
  type : String
  name : String
  tracked_variables : List String := []
  expected_input_schema : List (String × String) := []
  logic_code : Option String := Option.none
  condition : Option String := Option.none

/-- The serialized engine configuration (the JSON object; the text layer
`json.dumps`/`json.loads` is the identity on this data and is not
modelled). -/
structure EngineConfig : Type where
  name : String
  nodes : List (String × NodeConfig) := []
  dependencies : List (String × List String) := []

/-- The per-node branch of `RuleEngine.export_to_json`. -/
def nodeToConfig (node : PyNode) : NodeConfig :=
  { type := node.kind.className, name := node.name,
    tracked_variables := node.tracked_variables,
    expected_input_schema := node.expected_input_schema,
    logic_code :=
      match node.kind with
      | NodeKind.logic => node.logic_code
      | NodeKind.collection => node.logic_code
      | _ => Option.none,
    condition :=
      match node.kind with
      | NodeKind.gate => some node.condition
      | _ => Option.none }

/-- Python `RuleEngine.export_to_json`: the engine name, every node except
`start_node`, and the dependency map taken wholesale. -/
def export_to_json (st : EngineState) : EngineConfig :=
  { name := st.name,
    nodes := (st.data_flow.nodes.filter (fun p => ¬ p.1 = "start_node")).map
      (fun p => (p.1, nodeToConfig p.2)),
    dependencies := st.data_flow.dependencies }

/-- The per-node branch of `RuleEngine.import_from_json`: rebuild by `type`
(unknown types are skipped), then restore the declared fields. -/
def configToNode (node_name : String) (nc : NodeConfig) : Option PyNode :=
  let base :=
    if nc.type = "LogicNode" then
      some ({ name := node_name, kind := NodeKind.logic,
              logic_code := nc.logic_code } : PyNode)
    else if nc.type = "GateNode" then
      some { name := node_name, kind := NodeKind.gate,
             condition := nc.condition.getD "False" }
    else if nc.type = "CollectionNode" then
      some { name := node_name, kind := NodeKind.collection,
             logic_code := nc.logic_code }
    else Option.none
  base.map (fun b =>
    { b with tracked_variables := nc.tracked_variables,
             expected_input_schema := nc.expected_input_schema })

/-- Python `RuleEngine.import_from_json`: a fresh engine (implicit
`start_node`), every serialized node, then every `(source, target)`
dependency pair whose endpoints are both registered. -/
def import_from_json (cfg : EngineConfig) : EngineState :=
  let e0 := RuleEngine.new cfg.name
  let e1 := cfg.nodes.foldl (fun st p =>
    match configToNode p.1 p.2 with
    | some node => { st with data_flow := st.data_flow.add_node node }
    | Option.none => st) e0
  cfg.dependencies.foldl (fun st q =>
    q.2.foldl (fun st2 source =>
      if amem st2.data_flow.nodes source && amem st2.data_flow.nodes q.1 then
        match DataFlow.add_dependency st2.data_flow source q.1 with
        | Except.ok df => { st2 with data_flow := df }
        | Except.error _ => st2
      else st2) st) e1

/-! ## Specification-side definitions (for refinement comparisons)

These definitions follow the WORDS of spec.md, to be compared with the
embedded code; they are not translations of the source. -/

/-- Modelled from the spec, section 4.3: a dependency is viable iff its
recorded result succeeded and, if it is a Gate, its `should_continue` is
true. -/
def specViableDep (st : EngineState) (dep : String) : Bool :=
  match alookup st.execution_results dep with
  | some r =>
    r.success &&
      (match alookup st.data_flow.nodes dep with
       | some dn => (if dn.kind = NodeKind.gate then dn.should_continue else true)
       | Option.none => true)
  | Option.none => false

/-- Modelled from the spec, section 4.3: a node is blocked iff it has
dependencies and none of them are viable. -/
def specBlocked (st : EngineState) (node_name : String) : Bool :=
  let deps := depsOf st.data_flow.dependencies node_name
  !deps.isEmpty && deps.all (fun d => !specViableDep st d)

/-- A dependency edge: `a` is a recorded source of `b` (so `a` must run
before `b`). -/
def depEdge (dependencies : List (String × List String)) (a b : String) : Prop :=
  a ∈ depsOf dependencies b

/-- A dependency definition contains a cycle. -/
def HasCycle (dependencies : List (String × List String)) : Prop :=
  ∃ x, Relation.TransGen (depEdge dependencies) x x

/-- An order respects the dependencies: every source of a listed node is
listed strictly earlier. -/
def respectsDeps (dependencies : List (String × List String)) (order : List String) : Prop :=
  ∀ b ∈ order, ∀ a ∈ depsOf dependencies b,
    a ∈ order ∧ order.indexOf a < order.indexOf b

/-- Forward reachability from `start_node` (spec: "a forward breadth-first
traversal from start_node following node-to-dependents edges"). -/
def ReachableFromStart (dependencies : List (String × List String)) (n : String) : Prop :=
  Relation.ReflTransGen (depEdge dependencies) "start_node" n

/-- A host interpreter whose calls all succeed trivially (the node bodies
are never reached in the scenarios that use it). -/
def trivialInterp : HostInterp :=
  { logicBody := fun _ => fun _ _ _ => Except.ok [],
    gateCond := fun _ => fun _ _ _ => Except.ok false,
    collectionBody := fun _ => fun _ _ _ => Except.ok [] }

/-- The section 8 OR-semantics scenario at the moment `output` is admitted:
both gates ran successfully with mixed outcomes (`x=1`, so
`gate_lt_2.should_continue=True` and `gate_gte_2.should_continue=False`),
and `output` depends on both, in the given order. -/
def c1Engine (gateOrder : List String) : EngineState :=
  { name := "test_gate_logic",
    data_flow :=
      { nodes := [("start_node", startNode),
                  ("gate_lt_2", { name := "gate_lt_2", kind := NodeKind.gate,
                                  condition := "var < 2", should_continue := true }),
                  ("gate_gte_2", { name := "gate_gte_2", kind := NodeKind.gate,
                                   condition := "var >= 2", should_continue := false }),
                  ("output", { name := "output", kind := NodeKind.logic,
                               logic_code := some "output = var" })],
        dependencies := [("gate_lt_2", ["start_node"]), ("gate_gte_2", ["start_node"]),
                         ("output", gateOrder)] },
    execution_results :=
      [("start_node", { success := true, data := PyValue.vdict [], node_type := some "start" }),
       ("gate_lt_2", { success := true,
                       data := PyValue.vdict [("should_continue", PyValue.vbool true)],
                       node_type := some "gate" }),
       ("gate_gte_2", { success := true,
                        data := PyValue.vdict [("should_continue", PyValue.vbool false)],
                        node_type := some "gate" })] }

/-! ## Concrete states and operation wrappers used by the claims -/

/-- The concrete logic node of the C5/C6 witnesses. -/
def c6Node : PyNode :=
  { name := "logic1", kind := NodeKind.logic, tracked_variables := ["bad"],
    logic_code := some "bad = lambda: 0" }

/-- The repository scenario
`test_simplified_rule_engine.py::test_expected_input_schema_validation_fail`
at the moment `logic2` runs: `logic1` succeeded and published
`value = "not an int"`, and `logic2` declares `expected_input_schema =
{"value": "int"}`. -/
def c2Engine : EngineState :=
  { name := "test",
    data_flow :=
      { nodes := [("start_node", startNode),
                  ("logic1", { name := "logic1", kind := NodeKind.logic,
                               logic_code := some "value = 1", tracked_variables := ["value"],
                               flow_context := [("value", (PyValue.vstr "not an int", "logic1", 0))] }),
                  ("logic2", { name := "logic2", kind := NodeKind.logic,
                               logic_code := some "result = value * 2",
                               tracked_variables := ["result"],
                               expected_input_schema := [("value", "int")] })],
        dependencies := [("logic1", ["start_node"]), ("logic2", ["logic1"])] },
    execution_results :=
      [("start_node", { success := true, data := PyValue.vdict [], node_type := some "start" }),
       ("logic1", { success := true, data := PyValue.vdict [("value", PyValue.vstr "not an int")],
                    node_type := some "logic" })] }

/-- The operations offered by `DataFlow`, as applied by callers; a raising
`add_dependency` leaves the state unchanged (the check precedes any
mutation). -/
inductive DFOp : Type where
  | addNode (node : PyNode) : DFOp
  | addDependency (source target : String) : DFOp
  | removeNode (name : String) : DFOp
  | removeDependency (source target : String) : DFOp

/-- Apply one operation (a raising `add_dependency` mutates nothing). -/
def applyOp (df : DataFlow) : DFOp → DataFlow
  | DFOp.addNode n => df.add_node n
  | DFOp.addDependency s t =>
    match df.add_dependency s t with
    | Except.ok df2 => df2
    | Except.error _ => df
  | DFOp.removeNode n => df.remove_node n
  | DFOp.removeDependency s t => df.remove_dependency s t

/-- Apply a sequence of operations. -/
def applyOps (df : DataFlow) (ops : List DFOp) : DataFlow := ops.foldl applyOp df

/-- The C10 registration invariant, together with the dict/list-uniqueness
bookkeeping that the four operations maintain and that makes it inductive:
every dependency key and every source name is a registered node. -/
structure DFInv (df : DataFlow) : Prop where
  keys_nodup : (akeys df.nodes).Nodup
  dep_keys_nodup : (akeys df.dependencies).Nodup
  dep_keys_registered : ∀ t ∈ akeys df.dependencies, t ∈ akeys df.nodes
  sources_registered : ∀ p ∈ df.dependencies, ∀ s ∈ p.2, s ∈ akeys df.nodes
  sources_nodup : ∀ p ∈ df.dependencies, p.2.Nodup

/-- The keep test `CollectionNode.execute` effectively applies to one
flow-context variable (derived from `schemaFilterLoop`): the variable is
declared in the schema and its value passes the type check. -/
def keepVar (schema : List (String × String)) (q : String × PyValue) : Bool :=
  match alookup schema q.1 with
  | some ty =>
    match dataValidatorFromStringValidate ty q.2 with
    | Except.ok b => b
    | Except.error _ => false
  | Option.none => false

/-- Modelled from the spec: an ancestor qualifies iff every variable name in
`expected_input_schema` is present in its flow-context values and
individually passes that type check. -/
def claimKeeps (schema : List (String × String)) (fcv : Env) : Prop :=
  ∀ p ∈ schema, ∃ v, alookup fcv p.1 = some v
    ∧ dataValidatorFromStringValidate p.2 v = Except.ok true

/-- The universe of names the BFS of `validate_structure` can ever visit:
the start node and the dependency-map keys. -/
def startUniverse (dependencies : List (String × List String)) : List String :=
  "start_node" :: akeys dependencies

/-- Loop invariant of `kahnLoop` over the state `(deg, queue, result)`: the
recorded and queued names are distinct registered nodes; `deg` counts the
not-yet-recorded sources of every name; every queued name has all its
sources recorded; the recorded prefix respects the dependency order; and
every registered name whose sources are exhausted is recorded or queued. -/
structure KInv (deps : List (String × List String)) (nodes : List String)
    (deg : String → Int) (queue result : List String) : Prop where
  nd : (result ++ queue).Nodup
  sub : ∀ x ∈ result ++ queue, x ∈ nodes
  deg_eq : ∀ n, deg n =
    (((depsOf deps n).filter (fun s => ¬ s ∈ result)).length : Int)
  queue_ready : ∀ q ∈ queue, ∀ a ∈ depsOf deps q, a ∈ result
  ordered : ∀ b ∈ result, ∀ a ∈ depsOf deps b,
    a ∈ result ∧ result.indexOf a < result.indexOf b
  zero_mem : ∀ n ∈ nodes, deg n = 0 → n ∈ result ∨ n ∈ queue

/-- An acyclic three-node flow (start_node feeds a, a feeds b), as
`add_node`/`add_dependency` would build it, for the C4 witness. -/
def c4Flow : DataFlow :=
  { nodes := [("start_node", startNode),
              ("a", { name := "a", kind := NodeKind.logic, logic_code := some "x = 1" }),
              ("b", { name := "b", kind := NodeKind.logic, logic_code := some "y = x" })],
    dependencies := [("start_node", []), ("a", ["start_node"]), ("b", ["a"])] }

/-- A two-node flow whose dependencies form a cycle (a and b depend on each
other), for the C4 witness. -/
def c4FlowCyc : DataFlow :=
  { nodes := [("a", { name := "a", kind := NodeKind.logic }),
              ("b", { name := "b", kind := NodeKind.logic })],
    dependencies := [("a", ["b"]), ("b", ["a"])] }

/-- An engine whose `execution_results` still holds a stale entry under the
key `ghost` from some earlier run, while only `start_node` is registered
(the C3 counterexample state). -/
def c3Engine : EngineState :=
  { name := "stale",
    data_flow := { nodes := [("start_node", startNode)],
                   dependencies := [("start_node", [])] },
    execution_results :=
      [("ghost", { success := true, node_type := some "logic" })] }

/-- An engine whose structure is invalid (no `start_node` registered), for
the C3 validation-abort witness. -/
def c3BadEngine : EngineState :=
  { name := "invalid", data_flow := c4FlowCyc }

/-- The node-restoring fold of `import_from_json` (named subterm). -/
def importNodesFold (l : List (String × NodeConfig)) (st : EngineState) : EngineState :=
  l.foldl (fun st p =>
    match configToNode p.1 p.2 with
    | some node => { st with data_flow := st.data_flow.add_node node }
    | Option.none => st) st

/-- The dependency-restoring fold of `import_from_json` (named subterm). -/
def importDepsFold (l : List (String × List String)) (st : EngineState) : EngineState :=
  l.foldl (fun st q =>
    q.2.foldl (fun st2 source =>
      if amem st2.data_flow.nodes source && amem st2.data_flow.nodes q.1 then
        match DataFlow.add_dependency st2.data_flow source q.1 with
        | Except.ok df => { st2 with data_flow := df }
        | Except.error _ => st2
      else st2) st) st

/-- A valid engine with one node of each serializable kind, for the C9
round-trip witness. -/
def c9Engine : EngineState :=
  { name := "roundtrip",
    data_flow :=
      { nodes := [("start_node", startNode),
                  ("lg", { name := "lg", kind := NodeKind.logic,
                           logic_code := some "x = 1", tracked_variables := ["x"] }),
                  ("gt", { name := "gt", kind := NodeKind.gate,
                           condition := "x > 0", should_continue := true }),
                  ("col", { name := "col", kind := NodeKind.collection,
                            expected_input_schema := [("x", "int")] })],
        dependencies := [("start_node", []), ("lg", ["start_node"]),
                         ("gt", ["lg"]), ("col", ["gt"])] } }

/-! ## Claim C1 -/

/-- C1: the claim says a node fed by two Gates with mixed outcomes (one
`should_continue=True`, one `False`) executes successfully rather than
being blocked, in either listing order.  The code violates this: its first
admission loop returns a `blocked` result as soon as it meets ANY
successful denying Gate, in both orders, even though the spec-side
admission rule (`specBlocked`) finds a viable dependency and admits the
node.  This contradicts the spec (sections 4.3, 8, 9) and the repository's
own test `test_gate_logic.py::test_two_gates_one_pass`. -/
theorem C1_gate_shortcircuit_code_bug :
    (executeNode (c1Engine ["gate_lt_2", "gate_gte_2"]) trivialInterp 0 "output").2
        = Except.ok (blockedResult "Execution blocked by gate node gate_gte_2")
    ∧ (executeNode (c1Engine ["gate_gte_2", "gate_lt_2"]) trivialInterp 0 "output").2
        = Except.ok (blockedResult "Execution blocked by gate node gate_gte_2")
    ∧ specBlocked (c1Engine ["gate_lt_2", "gate_gte_2"]) "output" = false
    ∧ specBlocked (c1Engine ["gate_gte_2", "gate_lt_2"]) "output" = false :=
  ⟨rfl, rfl, rfl, rfl⟩

/-! ## Dictionary lemma kit -/

theorem alookup_cons {α : Type} (p : String × α) (l : List (String × α)) (k : String) :
    alookup (p :: l) k = if p.1 = k then some p.2 else alookup l k := by
  by_cases h : p.1 = k <;> simp [alookup, List.find?, h]

theorem alookup_eq_none_of_amem_false {α : Type} {l : List (String × α)} {k : String}
    (h : amem l k = false) : alookup l k = Option.none := by
  induction l with
  | nil => rfl
  | cons p rest ih =>
    simp only [amem, List.any_cons, Bool.or_eq_false_iff] at h
    rw [alookup_cons]
    simp only [decide_eq_false_iff_not] at h
    simp [h.1, ih (by simpa [amem] using h.2)]

theorem alookup_append_left {α : Type} {l1 : List (String × α)} (l2 : List (String × α))
    {k : String} (h : alookup l1 k = Option.none) :
    alookup (l1 ++ l2) k = alookup l2 k := by
  induction l1 with
  | nil => rfl
  | cons p rest ih =>
    rw [alookup_cons] at h
    by_cases hp : p.1 = k
    · simp [hp] at h
    · rw [List.cons_append, alookup_cons]
      simp only [hp, if_false] at h ⊢
      exact ih h

theorem alookup_append {α : Type} (l1 l2 : List (String × α)) (k : String) :
    alookup (l1 ++ l2) k
      = (match alookup l1 k with
         | some v => some v
         | Option.none => alookup l2 k) := by
  induction l1 with
  | nil => simp [alookup]
  | cons p rest ih =>
    rw [List.cons_append, alookup_cons, alookup_cons]
    by_cases hp : p.1 = k <;> simp [hp, ih]

theorem alookup_asetMap_self {α : Type} {l : List (String × α)} {k : String} (v : α)
    (h : l.any (fun p => p.1 = k) = true) :
    alookup (l.map (fun p => if p.1 = k then (k, v) else p)) k = some v := by
  induction l with
  | nil => simp at h
  | cons p rest ih =>
    by_cases hp : p.1 = k
    · simp [alookup_cons, hp]
    · simp only [List.map_cons, hp, if_false]
      rw [alookup_cons]
      simp only [hp, if_false]
      simp only [List.any_cons, Bool.or_eq_true, decide_eq_true_eq] at h
      exact ih (List.any_eq_true.mpr (by
        rcases h with h | h
        · exact absurd h hp
        · simpa using h))

theorem alookup_asetMap_ne {α : Type} (l : List (String × α)) {k k2 : String} (v : α)
    (h : ¬ k = k2) :
    alookup (l.map (fun p => if p.1 = k then (k, v) else p)) k2 = alookup l k2 := by
  induction l with
  | nil => rfl
  | cons p rest ih =>
    by_cases hp : p.1 = k
    · simp only [List.map_cons, hp, if_true]
      rw [alookup_cons, alookup_cons]
      simp only [hp]
      simp [h, ih]
    · simp only [List.map_cons, hp, if_false]
      rw [alookup_cons, alookup_cons]
      by_cases hp2 : p.1 = k2 <;> simp [hp2, ih]

theorem alookup_aset_self {α : Type} (l : List (String × α)) (k : String) (v : α) :
    alookup (aset l k v) k = some v := by
  unfold aset
  by_cases h : l.any (fun p => p.1 = k)
  · rw [if_pos h]
    exact alookup_asetMap_self v h
  · rw [if_neg h]
    rw [alookup_append]
    have hm : amem l k = false := by
      unfold amem
      exact Bool.eq_false_iff.mpr h
    rw [alookup_eq_none_of_amem_false hm]
    simp [alookup_cons]

theorem alookup_aset_ne {α : Type} (l : List (String × α)) {k k2 : String} (v : α)
    (h : ¬ k = k2) : alookup (aset l k v) k2 = alookup l k2 := by
  unfold aset
  by_cases hm : l.any (fun p => p.1 = k)
  · rw [if_pos hm]
    exact alookup_asetMap_ne l v h
  · rw [if_neg hm, alookup_append]
    have : alookup [(k, v)] k2 = Option.none := by
      rw [alookup_cons]
      simp [h, alookup]
    rw [this]
    cases alookup l k2 <;> simp

/-! ## Claims C5 and C6 -/

/-- C5: publishing a variable into a flow-context overwrites an existing
entry only when the new timestamp is strictly later, and inserts when the
variable is absent; consequently two publishes of the same variable at
different times leave the later-stamped value regardless of their order
(the two-ancestor inheritance scenario), and a value the node itself
publishes after inheritance (with a later timestamp, source = itself) wins
over the inherited one. -/
theorem C5_flow_context_merge
    (node : PyNode) (var : String) (v1 v2 : PyValue) (s1 s2 : String) (t1 t2 : Nat)
    (hs1 : serializable v1 = true) (hs2 : serializable v2 = true) :
    (∀ v0 s0 t0, alookup node.flow_context var = some (v0, s0, t0) →
        (t0 < t1 →
          update_flow_context node var v1 (some s1) t1
            = Except.ok { node with
                flow_context := aset node.flow_context var (v1, s1, t1) })
      ∧ (¬ t0 < t1 → update_flow_context node var v1 (some s1) t1 = Except.ok node))
    ∧ (alookup node.flow_context var = Option.none →
        update_flow_context node var v1 (some s1) t1
          = Except.ok { node with
              flow_context := node.flow_context ++ [(var, (v1, s1, t1))] })
    ∧ (alookup node.flow_context var = Option.none → t1 < t2 →
        (∃ n1 n2,
          update_flow_context node var v1 (some s1) t1 = Except.ok n1
          ∧ update_flow_context n1 var v2 (some s2) t2 = Except.ok n2
          ∧ alookup n2.flow_context var = some (v2, s2, t2))
        ∧ (∃ m1 m2,
          update_flow_context node var v2 (some s2) t2 = Except.ok m1
          ∧ update_flow_context m1 var v1 (some s1) t1 = Except.ok m2
          ∧ alookup m2.flow_context var = some (v2, s2, t2)))
    ∧ (∀ v0 s0 t0, alookup node.flow_context var = some (v0, s0, t0) → t0 < t2 →
        ∃ n3, update_flow_context node var v2 Option.none t2 = Except.ok n3
          ∧ alookup n3.flow_context var = some (v2, node.name, t2)) := by
  refine ⟨?_, ?_, ?_, ?_⟩
  · intro v0 s0 t0 hent
    refine ⟨fun hlt => ?_, fun hge => ?_⟩
    · simp [update_flow_context, hs1, hent, hlt]
    · simp [update_flow_context, hs1, hent, hge]
  · intro hnone
    simp [update_flow_context, hs1, hnone]
  · intro hnone hlt
    have hl1 : alookup (node.flow_context ++ [(var, (v1, s1, t1))]) var
        = some (v1, s1, t1) := by
      rw [alookup_append, hnone]
      simp [alookup_cons]
    have hl2 : alookup (node.flow_context ++ [(var, (v2, s2, t2))]) var
        = some (v2, s2, t2) := by
      rw [alookup_append, hnone]
      simp [alookup_cons]
    constructor
    · have e1 : update_flow_context node var v1 (some s1) t1 = Except.ok { node with flow_context := node.flow_context ++ [(var, (v1, s1, t1))] } := by
        simp [update_flow_context, hs1, hnone]
      have e2 : update_flow_context { node with flow_context := node.flow_context ++ [(var, (v1, s1, t1))] } var v2 (some s2) t2 = Except.ok { node with flow_context := aset (node.flow_context ++ [(var, (v1, s1, t1))]) var (v2, s2, t2) } := by
        simp [update_flow_context, hs2, hl1, hlt]
      exact ⟨_, _, e1, e2, by simp [alookup_aset_self]⟩
    · have e1 : update_flow_context node var v2 (some s2) t2 = Except.ok { node with flow_context := node.flow_context ++ [(var, (v2, s2, t2))] } := by
        simp [update_flow_context, hs2, hnone]
      have e2 : update_flow_context { node with flow_context := node.flow_context ++ [(var, (v2, s2, t2))] } var v1 (some s1) t1 = Except.ok { node with flow_context := node.flow_context ++ [(var, (v2, s2, t2))] } := by
        simp [update_flow_context, hs1, hl2, Nat.lt_asymm hlt]
      exact ⟨_, _, e1, e2, hl2⟩
  · intro v0 s0 t0 hent hlt
    have e1 : update_flow_context node var v2 Option.none t2 = Except.ok { node with flow_context := aset node.flow_context var (v2, node.name, t2) } := by
      simp [update_flow_context, hs2, hent, hlt, Option.getD]
    exact ⟨_, e1, by simp [alookup_aset_self]⟩

/-- Witness for `C5_flow_context_merge` at a concrete input. -/
theorem C5_flow_context_merge_witness :
    serializable (PyValue.vint 1) = true
    ∧ (alookup c6Node.flow_context "shared" = Option.none → 3 < 7 →
        (∃ n1 n2,
          update_flow_context c6Node "shared" (PyValue.vint 1) (some "P") 3 = Except.ok n1
          ∧ update_flow_context n1 "shared" (PyValue.vint 2) (some "Q") 7 = Except.ok n2
          ∧ alookup n2.flow_context "shared" = some (PyValue.vint 2, "Q", 7))
        ∧ (∃ m1 m2,
          update_flow_context c6Node "shared" (PyValue.vint 2) (some "Q") 7 = Except.ok m1
          ∧ update_flow_context m1 "shared" (PyValue.vint 1) (some "P") 3 = Except.ok m2
          ∧ alookup m2.flow_context "shared" = some (PyValue.vint 2, "Q", 7))) :=
  ⟨rfl, (C5_flow_context_merge c6Node "shared" (PyValue.vint 1) (PyValue.vint 2)
      "P" "Q" 3 7 rfl rfl).2.2.1⟩

/-- C6: a value that `UniversalEncoder` cannot represent makes the publish
raise immediately (the serializability check precedes any write, so the
flow-context is not mutated: the publication loop stops with the node state
it had before the failing publish), and a Logic node whose tracked-variable
publication raises ends with a `failed` NodeResult carrying the exception
text. -/
theorem C6_serialization_guard
    (node : PyNode) (var : String) (v : PyValue) (src : Option String) (t : Nat)
    (hv : serializable v = false) :
    update_flow_context node var v src t
        = Except.error ("变量 " ++ var ++ " 无法序列化为JSON")
    ∧ (∀ c locals rest, alookup locals var = some v →
        publishTracked node c locals (var :: rest)
          = ((node, c), some ("变量 " ++ var ++ " 无法序列化为JSON")))
    ∧ (∀ inputs context body clock n1 c1 locals st2 e,
        pyStrTruthy node.logic_code = true →
        merge_flow_context_from_inputs node clock inputs = ((n1, c1), Option.none) →
        body inputs context (flowValues n1.flow_context) = Except.ok locals →
        publishTracked n1 c1 locals n1.tracked_variables = (st2, some e) →
        logicNodeExecute node inputs context body clock
          = (st2, Except.ok (failedResult e st2.1.kind.tag))) := by
  refine ⟨?_, ?_, ?_⟩
  · simp [update_flow_context, hv]
  · intro c locals rest hl
    simp [publishTracked, hl, update_flow_context, hv]
  · intro inputs context body clock n1 c1 locals st2 e hcode hmerge hbody hpub
    simp [logicNodeExecute, hcode, hmerge, hbody, hpub]

/-- Witness for `C6_serialization_guard` at a concrete input: publishing a
function-like value fails with the node state unchanged. -/
theorem C6_serialization_guard_witness :
    serializable (PyValue.pyobject "function") = false
    ∧ update_flow_context c6Node "bad" (PyValue.pyobject "function") Option.none 5
        = Except.error ("变量 " ++ "bad" ++ " 无法序列化为JSON")
    ∧ publishTracked c6Node 5 [("bad", PyValue.pyobject "function")] ["bad"]
        = ((c6Node, 5), some ("变量 " ++ "bad" ++ " 无法序列化为JSON")) :=
  ⟨rfl,
   (C6_serialization_guard c6Node "bad" (PyValue.pyobject "function") Option.none 5 rfl).1,
   (C6_serialization_guard c6Node "bad" (PyValue.pyobject "function") Option.none 5
      rfl).2.1 5 [("bad", PyValue.pyobject "function")] [] rfl⟩

/-! ## More dictionary and engine-loop lemmas -/

theorem amem_eq_isSome_alookup {α : Type} (l : List (String × α)) (k : String) :
    amem l k = (alookup l k).isSome := by
  induction l with
  | nil => rfl
  | cons p rest ih =>
    rw [alookup_cons]
    by_cases hp : p.1 = k
    · simp [amem, hp]
    · simp only [amem, List.any_cons, hp, decide_eq_true_eq, Bool.or_eq_true, if_false]
      simp only [amem] at ih
      simp [hp, ih]

theorem amem_aset {α : Type} (l : List (String × α)) (k k2 : String) (v : α) :
    amem (aset l k v) k2 = (amem l k2 || k = k2) := by
  by_cases hk : k = k2
  · subst hk
    rw [amem_eq_isSome_alookup, alookup_aset_self]
    simp
  · rw [amem_eq_isSome_alookup, alookup_aset_ne l v hk, ← amem_eq_isSome_alookup]
    simp [hk]

/-- `_execute_node` never touches `execution_results` (only the `execute`
loop writes them). -/
theorem executeNode_results_eq (st : EngineState) (interp : HostInterp) (c : Nat)
    (name : String) :
    (executeNode st interp c name).1.1.execution_results = st.execution_results := by
  simp only [executeNode]
  repeat' split
  all_goals rfl

theorem engineRunLoop_lookup_not_mem (interp : HostInterp) :
    ∀ (order : List String) (st : EngineState) (c : Nat) (n : String), n ∉ order →
      alookup (engineRunLoop interp order st c).1.execution_results n
        = alookup st.execution_results n := by
  intro order
  induction order with
  | nil => intro st c n _; rfl
  | cons m rest ih =>
    intro st c n hn
    have hnm : ¬ m = n := fun h => hn (h ▸ List.mem_cons_self m rest)
    have hnr : n ∉ rest := fun h => hn (List.mem_cons_of_mem m h)
    simp only [engineRunLoop]
    rw [ih _ _ _ hnr]
    simp only [alookup_aset_ne _ _ hnm, executeNode_results_eq]

/-- Key characterization of the result map written by the execute loop. -/
theorem engineRunLoop_amem (interp : HostInterp) :
    ∀ (order : List String) (st : EngineState) (c : Nat) (x : String),
      (amem (engineRunLoop interp order st c).1.execution_results x = true
        ↔ amem st.execution_results x = true ∨ x ∈ order) := by
  intro order
  induction order with
  | nil =>
    intro st c x
    simp [engineRunLoop]
  | cons m rest ih =>
    intro st c x
    simp only [engineRunLoop]
    rw [ih]
    rw [amem_aset, executeNode_results_eq]
    simp only [Bool.or_eq_true, decide_eq_true_eq, List.mem_cons]
    constructor
    · rintro ((h | h) | h)
      · exact Or.inl h
      · exact Or.inr (Or.inl h.symm)
      · exact Or.inr (Or.inr h)
    · rintro (h | h | h)
      · exact Or.inl (Or.inl h)
      · exact Or.inl (Or.inr h.symm)
      · exact Or.inr h

/-- The `except` arm of the execute loop records the escaped exception text
with all other `NodeResult` fields left at their defaults. -/
theorem engineRunLoop_catch (interp : HostInterp) (name : String) (rest : List String)
    (st : EngineState) (c : Nat) (e : String)
    (hrest : name ∉ rest)
    (hexec : (executeNode st interp c name).2 = Except.error e) :
    alookup (engineRunLoop interp (name :: rest) st c).1.execution_results name
      = some { success := false, error := some e } := by
  simp only [engineRunLoop]
  rw [engineRunLoop_lookup_not_mem interp rest _ _ _ hrest]
  rw [hexec]
  simp [alookup_aset_self]

/-! ## Claim C2 -/

/-- C2 counterexample: an inherited variable failing its
`expected_input_schema` check in a Logic node escapes `_execute_node` as an
exception, so the engine-loop catch records it with the DEFAULT status
`"executed"` and NO `node_type` tag — not `status="failed"` with the
correct tag as the claim states. -/
theorem C2_inherit_status_counterexample :
    (executeNode c2Engine trivialInterp 0 "logic2").2
        = Except.error (validationFailMsg "value" "int" "str")
    ∧ alookup (engineRunLoop trivialInterp ["logic2"] c2Engine 0).1.execution_results "logic2"
        = some { success := false, error := some (validationFailMsg "value" "int" "str") }
    ∧ ({ success := false,
         error := some (validationFailMsg "value" "int" "str") } : NodeResult).status
        = "executed"
    ∧ ({ success := false,
         error := some (validationFailMsg "value" "int" "str") } : NodeResult).node_type
        = Option.none :=
  ⟨rfl, rfl, rfl, rfl⟩

/-- C2 (amended): every per-node error is caught and recorded without
aborting the run: (a) the execute loop records a result for every listed
node, old entries staying put; (b) a failed inheritance validation in a
Logic or Gate node escapes the node method carrying the exception text;
(c) the loop catch records such an escaped exception as
`success=false`/`error=text` with default status and no tag; (d) an error
raised inside the Logic body, and (e) a raise anywhere inside a Collection
node (whose whole body sits in its `try`), are recorded as `failed` with
the correct `node_type` tag. -/
theorem C2_per_node_error_containment :
    (∀ (interp : HostInterp) (order : List String) (st : EngineState) (c : Nat)
       (n : String), n ∈ order →
        amem (engineRunLoop interp order st c).1.execution_results n = true)
    ∧ (∀ (node : PyNode) (inputs : Inputs) (context : Env) (body : LogicBody)
         (clock : Nat) (st1 : PyNode × Nat) (e : String),
        pyStrTruthy node.logic_code = true →
        merge_flow_context_from_inputs node clock inputs = (st1, some e) →
        logicNodeExecute node inputs context body clock = (st1, Except.error e))
    ∧ (∀ (node : PyNode) (inputs : Inputs) (context : Env) (cond : GateCond)
         (clock : Nat) (st1 : PyNode × Nat) (e : String),
        ¬ node.condition = "" →
        merge_flow_context_from_inputs node clock inputs = (st1, some e) →
        gateNodeExecute node inputs context cond clock = (st1, Except.error e))
    ∧ (∀ (interp : HostInterp) (name : String) (rest : List String) (st : EngineState)
         (c : Nat) (e : String), name ∉ rest →
        (executeNode st interp c name).2 = Except.error e →
        alookup (engineRunLoop interp (name :: rest) st c).1.execution_results name
          = some { success := false, error := some e })
    ∧ (∀ (node : PyNode) (inputs : Inputs) (context : Env) (body : LogicBody)
         (clock : Nat) (n1 : PyNode) (c1 : Nat) (e : String),
        pyStrTruthy node.logic_code = true →
        merge_flow_context_from_inputs node clock inputs = ((n1, c1), Option.none) →
        body inputs context (flowValues n1.flow_context) = Except.error e →
        logicNodeExecute node inputs context body clock
          = ((n1, c1), Except.ok (failedResult e n1.kind.tag)))
    ∧ (∀ (node : PyNode) (inputs : Inputs) (context : Env) (body : CollectionBody)
         (clock : Nat) (st1 : PyNode × Nat) (e : String),
        merge_flow_context_from_inputs node clock inputs = (st1, some e) →
        collectionNodeExecute node inputs context body clock
          = (st1, failedResult e node.kind.tag)) := by
  refine ⟨?_, ?_, ?_, ?_, ?_, ?_⟩
  · intro interp order st c n hn
    exact (engineRunLoop_amem interp order st c n).mpr (Or.inr hn)
  · intro node inputs context body clock st1 e hcode hmerge
    simp [logicNodeExecute, hcode, hmerge]
  · intro node inputs context cond clock st1 e hcond hmerge
    simp [gateNodeExecute, hcond, hmerge]
  · intro interp name rest st c e hrest hexec
    exact engineRunLoop_catch interp name rest st c e hrest hexec
  · intro node inputs context body clock n1 c1 e hcode hmerge hbody
    simp [logicNodeExecute, hcode, hmerge, hbody]
  · intro node inputs context body clock st1 e hmerge
    cases st1 with
    | mk n1 c1 => simp [collectionNodeExecute, hmerge]

/-- Witness for `C2_per_node_error_containment` at the concrete
`c2Engine` scenario. -/
theorem C2_per_node_error_containment_witness :
    ("logic2" ∉ ([] : List String))
    ∧ (executeNode c2Engine trivialInterp 0 "logic2").2
        = Except.error (validationFailMsg "value" "int" "str")
    ∧ alookup (engineRunLoop trivialInterp ["logic2"] c2Engine 0).1.execution_results "logic2"
        = some { success := false, error := some (validationFailMsg "value" "int" "str") } :=
  ⟨List.not_mem_nil "logic2", rfl,
   C2_per_node_error_containment.2.2.2.1 trivialInterp "logic2" [] c2Engine 0
     (validationFailMsg "value" "int" "str") (List.not_mem_nil "logic2") rfl⟩

/-! ## More dictionary lemmas (membership and keys) -/

theorem alookup_mem {α : Type} {l : List (String × α)} {k : String} {v : α}
    (h : alookup l k = some v) : (k, v) ∈ l := by
  induction l with
  | nil => simp [alookup] at h
  | cons p rest ih =>
    rw [alookup_cons] at h
    by_cases hp : p.1 = k
    · simp only [hp, if_true, Option.some.injEq] at h
      cases p with
      | mk a b =>
        simp only at hp h
        subst hp
        subst h
        exact List.mem_cons_self _ _
    · simp only [hp, if_false] at h
      exact List.mem_cons_of_mem _ (ih h)

theorem mem_aset {α : Type} {l : List (String × α)} {k : String} {v : α} {p : String × α}
    (h : p ∈ aset l k v) : p ∈ l ∨ p = (k, v) := by
  unfold aset at h
  by_cases hm : l.any (fun q => q.1 = k)
  · rw [if_pos hm] at h
    rcases List.mem_map.mp h with ⟨q, hq, hfq⟩
    by_cases hqk : q.1 = k
    · rw [if_pos hqk] at hfq
      exact Or.inr hfq.symm
    · rw [if_neg hqk] at hfq
      exact Or.inl (hfq ▸ hq)
  · rw [if_neg hm] at h
    rcases List.mem_append.mp h with h | h
    · exact Or.inl h
    · exact Or.inr (List.mem_singleton.mp h)

theorem akeys_aset_of_amem {α : Type} {l : List (String × α)} {k : String} (v : α)
    (h : amem l k = true) : akeys (aset l k v) = akeys l := by
  unfold amem at h
  unfold aset akeys
  rw [if_pos h, List.map_map]
  refine List.map_congr_left (fun p _ => ?_)
  by_cases hp : p.1 = k
  · simp [hp]
  · simp [hp]

theorem akeys_aset_of_not_amem {α : Type} {l : List (String × α)} {k : String} (v : α)
    (h : amem l k = false) : akeys (aset l k v) = akeys l ++ [k] := by
  unfold amem at h
  unfold aset akeys
  rw [if_neg (by simp [h]), List.map_append]
  rfl

theorem mem_akeys_iff_amem {α : Type} (l : List (String × α)) (k : String) :
    k ∈ akeys l ↔ amem l k = true := by
  unfold akeys amem
  rw [List.any_eq_true]
  constructor
  · intro h
    rcases List.mem_map.mp h with ⟨p, hp, he⟩
    exact ⟨p, hp, by simp [he]⟩
  · rintro ⟨p, hp, he⟩
    simp only [decide_eq_true_eq] at he
    exact List.mem_map.mpr ⟨p, hp, he⟩

theorem nodup_akeys_aset {α : Type} {l : List (String × α)} {k : String} (v : α)
    (h : (akeys l).Nodup) : (akeys (aset l k v)).Nodup := by
  cases hm : amem l k
  · rw [akeys_aset_of_not_amem v hm]
    refine List.Nodup.append h (List.nodup_singleton k) ?_
    intro x hx hk
    rw [List.mem_singleton.mp hk] at hx
    exact absurd ((mem_akeys_iff_amem l k).mp hx) (by simp [hm])
  · rw [akeys_aset_of_amem v hm]
    exact h

theorem akeys_aerase {α : Type} (l : List (String × α)) (k : String) :
    akeys (aerase l k) = (akeys l).filter (fun x => ¬ x = k) := by
  unfold akeys aerase
  induction l with
  | nil => rfl
  | cons p rest ih =>
    simp only [decide_not] at ih ⊢
    by_cases hp : p.1 = k
    · simp [hp, ih]
    · simp [hp, ih]

/-! ## Claim C10 -/

theorem mem_akeys_aset {α : Type} (l : List (String × α)) (k : String) (v : α) (x : String) :
    x ∈ akeys (aset l k v) ↔ x ∈ akeys l ∨ x = k := by
  cases hm : amem l k
  · rw [akeys_aset_of_not_amem v hm]
    simp [List.mem_append]
  · rw [akeys_aset_of_amem v hm]
    constructor
    · exact Or.inl
    · rintro (h | h)
      · exact h
      · rw [h]
        exact (mem_akeys_iff_amem l k).mpr hm

theorem mem_aerase {α : Type} {l : List (String × α)} {k : String} {q : String × α}
    (h : q ∈ aerase l k) : q ∈ l ∧ ¬ q.1 = k := by
  have := List.mem_filter.mp h
  exact ⟨this.1, by simpa using this.2⟩

theorem akeys_map_snd {α β : Type} (l : List (String × α)) (g : String × α → β) :
    akeys (l.map (fun p => (p.1, g p))) = akeys l := by
  unfold akeys
  rw [List.map_map]
  rfl

theorem dfinv_add_node {df : DataFlow} (h : DFInv df) (node : PyNode) :
    DFInv (df.add_node node) := by
  obtain ⟨h1, h2, h3, h4, h5⟩ := h
  refine ⟨nodup_akeys_aset node h1, nodup_akeys_aset [] h2, ?_, ?_, ?_⟩
  · intro t ht
    rcases (mem_akeys_aset _ _ _ t).mp ht with hh | hh
    · exact (mem_akeys_aset _ _ _ t).mpr (Or.inl (h3 t hh))
    · exact (mem_akeys_aset _ _ _ t).mpr (Or.inr hh)
  · intro p hp sn hs
    rcases mem_aset hp with hh | hh
    · exact (mem_akeys_aset _ _ _ sn).mpr (Or.inl (h4 p hh sn hs))
    · rw [hh] at hs
      simp at hs
  · intro p hp
    rcases mem_aset hp with hh | hh
    · exact h5 p hh
    · rw [hh]
      exact List.nodup_nil

theorem dfinv_add_dependency {df : DataFlow} (h : DFInv df) (s t : String) :
    DFInv (applyOp df (DFOp.addDependency s t)) := by
  obtain ⟨h1, h2, h3, h4, h5⟩ := h
  simp only [applyOp]
  unfold DataFlow.add_dependency
  by_cases hg : (amem df.nodes s && amem df.nodes t) = true
  case neg =>
    rw [if_pos hg]
    exact ⟨h1, h2, h3, h4, h5⟩
  case pos =>
    rw [if_neg (by simp [hg])]
    have hg2 : amem df.nodes s = true ∧ amem df.nodes t = true := by
      constructor <;> simp_all
    have hs : amem df.nodes s = true := hg2.1
    have ht : amem df.nodes t = true := hg2.2
    have hsk : s ∈ akeys df.nodes := (mem_akeys_iff_amem _ _).mpr hs
    have htk : t ∈ akeys df.nodes := (mem_akeys_iff_amem _ _).mpr ht
    -- the (possibly extended) dependency dict and the facts we need about it
    set deps := if amem df.dependencies t then df.dependencies
      else df.dependencies ++ [(t, [])] with hdeps
    have hdk_nodup : (akeys deps).Nodup := by
      rw [hdeps]
      cases hm : amem df.dependencies t
      · simp only [Bool.false_eq_true, if_false]
        unfold akeys
        rw [List.map_append]
        refine List.Nodup.append h2 (List.nodup_singleton t) ?_
        intro x hx hk
        rw [List.mem_singleton.mp hk] at hx
        exact absurd ((mem_akeys_iff_amem df.dependencies t).mp hx) (by simp [hm])
      · simpa using h2
    have hdk_reg : ∀ x ∈ akeys deps, x ∈ akeys df.nodes := by
      intro x hx
      rw [hdeps] at hx
      cases hm : amem df.dependencies t
      · rw [hm] at hx
        simp only [Bool.false_eq_true, if_false] at hx
        unfold akeys at hx
        rw [List.map_append] at hx
        rcases List.mem_append.mp hx with hh | hh
        · exact h3 x hh
        · rw [List.mem_singleton.mp hh]
          exact htk
      · rw [hm] at hx
        simp only [if_true] at hx
        exact h3 x hx
    have hmem_deps : ∀ p ∈ deps, p ∈ df.dependencies ∨ p = (t, ([] : List String)) := by
      intro p hp
      rw [hdeps] at hp
      cases hm : amem df.dependencies t
      · rw [hm] at hp
        simp only [Bool.false_eq_true, if_false] at hp
        rcases List.mem_append.mp hp with hh | hh
        · exact Or.inl hh
        · exact Or.inr (List.mem_singleton.mp hh)
      · rw [hm] at hp
        simp only [if_true] at hp
        exact Or.inl hp
    have hsrc : ∀ p ∈ deps, ∀ x ∈ p.2, x ∈ akeys df.nodes := by
      intro p hp x hx
      rcases hmem_deps p hp with hh | hh
      · exact h4 p hh x hx
      · rw [hh] at hx
        simp at hx
    have hnd : ∀ p ∈ deps, p.2.Nodup := by
      intro p hp
      rcases hmem_deps p hp with hh | hh
      · exact h5 p hh
      · rw [hh]
        exact List.nodup_nil
    have hcur_mem : ∀ cur, alookup deps t = some cur → (t, cur) ∈ deps :=
      fun cur hc => alookup_mem hc
    by_cases hin : s ∈ (alookup deps t).getD []
    · rw [if_pos hin]
      exact ⟨h1, hdk_nodup, hdk_reg, hsrc, hnd⟩
    · rw [if_neg hin]
      set cur := (alookup deps t).getD [] with hcur
      have hcur_in : (t, cur) ∈ deps := by
        rw [hcur]
        cases hc : alookup deps t with
        | none =>
          exfalso
          have : amem deps t = true := by
            rw [hdeps]
            cases hm : amem df.dependencies t
            · simp only [Bool.false_eq_true, if_false]
              unfold amem
              rw [List.any_append]
              simp
            · simpa using hm
          rw [amem_eq_isSome_alookup, hc] at this
          simp at this
        | some c =>
          simpa using hcur_mem c hc
      refine ⟨h1, nodup_akeys_aset _ hdk_nodup, ?_, ?_, ?_⟩
      · intro x hx
        rcases (mem_akeys_aset _ _ _ x).mp hx with hh | hh
        · exact hdk_reg x hh
        · rw [hh]
          exact htk
      · intro p hp x hx
        rcases mem_aset hp with hh | hh
        · exact hsrc p hh x hx
        · rw [hh] at hx
          rcases List.mem_append.mp hx with hh2 | hh2
          · exact hsrc (t, cur) hcur_in x hh2
          · rw [List.mem_singleton.mp hh2]
            exact hsk
      · intro p hp
        rcases mem_aset hp with hh | hh
        · exact hnd p hh
        · rw [hh]
          refine List.Nodup.append (hnd (t, cur) hcur_in) (List.nodup_singleton s) ?_
          intro x hx hk
          rw [List.mem_singleton.mp hk] at hx
          exact hin hx

theorem dfinv_remove_node {df : DataFlow} (h : DFInv df) (n : String) :
    DFInv (df.remove_node n)
    ∧ n ∉ akeys (df.remove_node n).dependencies
    ∧ ∀ p ∈ (df.remove_node n).dependencies, n ∉ p.2 := by
  obtain ⟨h1, h2, h3, h4, h5⟩ := h
  have hmem : ∀ p : String × List String,
      p ∈ (df.remove_node n).dependencies →
      ∃ q ∈ df.dependencies, ¬ q.1 = n ∧ p = (q.1, q.2.erase n) := by
    intro p hp
    rcases List.mem_map.mp hp with ⟨q, hq, he⟩
    have := mem_aerase hq
    exact ⟨q, this.1, this.2, he.symm⟩
  have hkeys : akeys (df.remove_node n).dependencies
      = (akeys df.dependencies).filter (fun x => ¬ x = n) := by
    show akeys ((aerase df.dependencies n).map (fun p => (p.1, p.2.erase n))) = _
    rw [akeys_map_snd (aerase df.dependencies n) (fun p => p.2.erase n), akeys_aerase]
  refine ⟨⟨?_, ?_, ?_, ?_, ?_⟩, ?_, ?_⟩
  · show (akeys (aerase df.nodes n)).Nodup
    rw [akeys_aerase]
    exact h1.filter _
  · rw [hkeys]
    exact h2.filter _
  · intro t ht
    rw [hkeys] at ht
    have := List.mem_filter.mp ht
    have htn : ¬ t = n := by simpa using this.2
    show t ∈ akeys (aerase df.nodes n)
    rw [akeys_aerase]
    exact List.mem_filter.mpr ⟨h3 t this.1, by simpa using htn⟩
  · intro p hp x hx
    rcases hmem p hp with ⟨q, hq, hqn, he⟩
    rw [he] at hx
    have hxq : x ∈ q.2.erase n := hx
    have hx2 : x ≠ n ∧ x ∈ q.2 := ((h5 q hq).mem_erase_iff).mp hxq
    show x ∈ akeys (aerase df.nodes n)
    rw [akeys_aerase]
    exact List.mem_filter.mpr ⟨h4 q hq x hx2.2, by simpa using hx2.1⟩
  · intro p hp
    rcases hmem p hp with ⟨q, hq, hqn, he⟩
    rw [he]
    exact (h5 q hq).erase n
  · rw [hkeys]
    intro hn
    have := List.mem_filter.mp hn
    simp at this
  · intro p hp hn
    rcases hmem p hp with ⟨q, hq, hqn, he⟩
    rw [he] at hn
    have := ((h5 q hq).mem_erase_iff).mp hn
    exact this.1 rfl

theorem dfinv_remove_dependency {df : DataFlow} (h : DFInv df) (s t : String) :
    DFInv (df.remove_dependency s t) := by
  obtain ⟨h1, h2, h3, h4, h5⟩ := h
  unfold DataFlow.remove_dependency
  split
  case h_2 => exact ⟨h1, h2, h3, h4, h5⟩
  case h_1 =>
    rename_i cur hc
    by_cases hin : s ∈ cur
    · rw [if_pos hin]
      have hcur_in : (t, cur) ∈ df.dependencies := alookup_mem hc
      refine ⟨h1, nodup_akeys_aset _ h2, ?_, ?_, ?_⟩
      · intro x hx
        rcases (mem_akeys_aset _ _ _ x).mp hx with hh | hh
        · exact h3 x hh
        · rw [hh]
          exact h3 t ((mem_akeys_iff_amem _ _).mpr
            (by rw [amem_eq_isSome_alookup, hc]; rfl))
      · intro p hp x hx
        rcases mem_aset hp with hh | hh
        · exact h4 p hh x hx
        · rw [hh] at hx
          exact h4 (t, cur) hcur_in x (List.mem_of_mem_erase hx)
      · intro p hp
        rcases mem_aset hp with hh | hh
        · exact h5 p hh
        · rw [hh]
          exact (h5 (t, cur) hcur_in).erase s
    · rw [if_neg hin]
      exact ⟨h1, h2, h3, h4, h5⟩

/-- C10: every name occurring in the dependency map — as a target key or
inside a source list — names a registered node, and this (with the key and
source-list uniqueness the dict operations maintain) is an invariant of the
initial `DataFlow()` preserved by every sequence of `add_node`,
`add_dependency`, `remove_node` and `remove_dependency`; moreover
`remove_node` deletes the removed name both as a key and from every source
list. -/
theorem C10_dataflow_invariant :
    DFInv {}
    ∧ (∀ (df : DataFlow) (ops : List DFOp), DFInv df → DFInv (applyOps df ops))
    ∧ (∀ df : DataFlow, DFInv df → ∀ n,
        n ∉ akeys (df.remove_node n).dependencies
        ∧ ∀ p ∈ (df.remove_node n).dependencies, n ∉ p.2) := by
  refine ⟨?_, ?_, ?_⟩
  · exact ⟨List.nodup_nil, List.nodup_nil, by simp [akeys], by simp, by simp⟩
  · intro df ops
    induction ops generalizing df with
    | nil => exact fun h => h
    | cons op rest ih =>
      intro h
      show DFInv (applyOps (applyOp df op) rest)
      refine ih (applyOp df op) ?_
      cases op with
      | addNode node => exact dfinv_add_node h node
      | addDependency s t => exact dfinv_add_dependency h s t
      | removeNode n => exact (dfinv_remove_node h n).1
      | removeDependency s t => exact dfinv_remove_dependency h s t
  · intro df h n
    exact (dfinv_remove_node h n).2

/-- Witness for `C10_dataflow_invariant`: a concrete op sequence (register
two nodes, wire them, remove one) keeps the invariant. -/
theorem C10_dataflow_invariant_witness :
    DFInv (applyOps {} [DFOp.addNode startNode, DFOp.addNode c6Node,
      DFOp.addDependency "start_node" "logic1", DFOp.removeNode "logic1"]) :=
  C10_dataflow_invariant.2.1 {} [DFOp.addNode startNode, DFOp.addNode c6Node,
      DFOp.addDependency "start_node" "logic1", DFOp.removeNode "logic1"]
    ⟨List.nodup_nil, List.nodup_nil, by simp [akeys], by simp, by simp⟩

/-! ## Claim C7 -/

theorem alookup_of_mem_nodup {α : Type} {l : List (String × α)} {k : String} {v : α}
    (hm : (k, v) ∈ l) (hn : (akeys l).Nodup) : alookup l k = some v := by
  induction l with
  | nil => simp at hm
  | cons p rest ih =>
    have hn2 := List.nodup_cons.mp (show (p.1 :: akeys rest).Nodup from hn)
    rw [alookup_cons]
    rcases List.mem_cons.mp hm with h | h
    · rw [← h]
      simp
    · have hk : k ∈ akeys rest := List.mem_map.mpr ⟨(k, v), h, rfl⟩
      have hp : ¬ p.1 = k := fun he => hn2.1 (he ▸ hk)
      rw [if_neg hp]
      exact ih h hn2.2

theorem amem_append {α : Type} (l1 l2 : List (String × α)) (k : String) :
    amem (l1 ++ l2) k = (amem l1 k || amem l2 k) := by
  unfold amem
  exact List.any_append

theorem schemaFilterLoop_char (schema : List (String × String))
    (hp : ∀ p ∈ schema, ∃ sc, parseSchema p.2 = Except.ok sc) :
    ∀ (fcv acc : Env), (akeys fcv).Nodup → (∀ x ∈ akeys fcv, amem acc x = false) →
      schemaFilterLoop schema fcv acc = Except.ok (acc ++ fcv.filter (keepVar schema)) := by
  intro fcv
  induction fcv with
  | nil =>
    intro acc _ _
    simp [schemaFilterLoop]
  | cons q rest ih =>
    intro acc hnd hdis
    obtain ⟨var, v⟩ := q
    have hn2 := List.nodup_cons.mp (show (var :: akeys rest).Nodup from hnd)
    have hnd2 : (akeys rest).Nodup := hn2.2
    have hvar_not : var ∉ akeys rest := hn2.1
    simp only [schemaFilterLoop]
    cases hs : alookup schema var with
    | none =>
      have hkeep : keepVar schema (var, v) = false := by simp [keepVar, hs]
      rw [List.filter_cons_of_neg (by simp [hkeep])]
      exact ih acc hnd2 (fun x hx => hdis x (List.mem_cons_of_mem _ hx))
    | some ty =>
      obtain ⟨sc, hsc⟩ := hp (var, ty) (alookup_mem hs)
      have hsc2 : parseSchema ty = Except.ok sc := hsc
      have hval : dataValidatorFromStringValidate ty v = Except.ok (schemaValidate sc v) := by
        unfold dataValidatorFromStringValidate
        rw [hsc2]
        rfl
      dsimp only
      rw [hval]
      dsimp only
      cases hb : schemaValidate sc v
      · rw [if_neg (by simp)]
        have hkeep : keepVar schema (var, v) = false := by
          simp [keepVar, hs, hval, hb]
        rw [List.filter_cons_of_neg (by simp [hkeep])]
        exact ih acc hnd2 (fun x hx => hdis x (List.mem_cons_of_mem _ hx))
      · rw [if_pos rfl]
        have hkeep : keepVar schema (var, v) = true := by
          simp [keepVar, hs, hval, hb]
        have hmem : amem acc var = false := hdis var (by simp [akeys])
        have haset : aset acc var v = acc ++ [(var, v)] := by
          unfold aset
          unfold amem at hmem
          rw [if_neg (by simp [hmem])]
        rw [haset]
        rw [ih (acc ++ [(var, v)]) hnd2 ?_]
        · rw [List.filter_cons_of_pos (by simp [hkeep])]
          simp
        · intro x hx
          rw [amem_append]
          have hxvar : ¬ var = x := fun he => hvar_not (he ▸ hx)
          rw [hdis x (List.mem_cons_of_mem _ hx)]
          simp [amem, hxvar]

theorem keep_count_iff (schema : List (String × String)) (fcv : Env)
    (hs : (akeys schema).Nodup) (hf : (akeys fcv).Nodup) :
    ((fcv.filter (keepVar schema)).length = schema.length) ↔ claimKeeps schema fcv := by
  set L := fcv.filter (keepVar schema) with hL
  have hLsub : (akeys L).Sublist (akeys fcv) := List.Sublist.map _ (List.filter_sublist fcv)
  have hLnd : (akeys L).Nodup := hLsub.nodup hf
  have hLsubset : akeys L ⊆ akeys schema := by
    intro x hx
    rcases List.mem_map.mp hx with ⟨q, hq, he⟩
    have hq2 := List.mem_filter.mp hq
    have : keepVar schema q = true := hq2.2
    unfold keepVar at this
    rw [mem_akeys_iff_amem, amem_eq_isSome_alookup]
    cases hsq : alookup schema q.1 with
    | none => rw [hsq] at this; simp at this
    | some ty => rw [← he]; rw [hsq]; rfl
  have hlenL : L.length = (akeys L).length := (List.length_map _ _).symm
  have hlenS : schema.length = (akeys schema).length := (List.length_map _ _).symm
  constructor
  · intro hlen
    intro p hpin
    have hxS : p.1 ∈ akeys schema := List.mem_map.mpr ⟨p, hpin, rfl⟩
    have hperm : (akeys L).Perm (akeys schema) := by
      refine List.Subperm.perm_of_length_le (List.subperm_of_subset hLnd hLsubset) ?_
      rw [← hlenL, ← hlenS, hlen]
    have hxL : p.1 ∈ akeys L := hperm.mem_iff.mpr hxS
    rcases List.mem_map.mp hxL with ⟨q, hq, he⟩
    have hq2 := List.mem_filter.mp hq
    have hkv : keepVar schema q = true := hq2.2
    have hlf : alookup fcv p.1 = some q.2 := by
      rw [← he]
      exact alookup_of_mem_nodup (by simpa using hq2.1) hf
    refine ⟨q.2, hlf, ?_⟩
    unfold keepVar at hkv
    rw [he, alookup_of_mem_nodup hpin hs] at hkv
    dsimp only at hkv
    cases hdv : dataValidatorFromStringValidate p.2 q.2 with
    | error e =>
      rw [hdv] at hkv
      dsimp only at hkv
      exact absurd hkv (by simp)
    | ok b =>
      rw [hdv] at hkv
      dsimp only at hkv
      rw [hkv]
  · intro hck
    have hsubset2 : akeys schema ⊆ akeys L := by
      intro x hx
      rcases List.mem_map.mp hx with ⟨p, hpin, he⟩
      obtain ⟨v, hlv, hval⟩ := hck p hpin
      have hin : (p.1, v) ∈ fcv := alookup_mem hlv
      have hkv : keepVar schema (p.1, v) = true := by
        unfold keepVar
        rw [alookup_of_mem_nodup hpin hs]
        dsimp only
        rw [hval]
      have : (p.1, v) ∈ L := List.mem_filter.mpr ⟨hin, hkv⟩
      rw [← he]
      exact List.mem_map.mpr ⟨(p.1, v), this, rfl⟩
    have h1 : (akeys L).length ≤ (akeys schema).length :=
      (List.subperm_of_subset hLnd hLsubset).length_le
    have h2 : (akeys schema).length ≤ (akeys L).length :=
      (List.subperm_of_subset hs hsubset2).length_le
    rw [hlenL, hlenS]
    exact Nat.le_antisymm h1 h2

theorem akeys_flowValues (fc : FlowContext) : akeys (flowValues fc) = akeys fc :=
  akeys_map_snd fc (fun e => e.2.1)

theorem collectLoop_char (schema : List (String × String)) (context : Env)
    (hs : (akeys schema).Nodup)
    (hp : ∀ p ∈ schema, ∃ sc, parseSchema p.2 = Except.ok sc) :
    ∀ (inputs : Inputs) (acc : List (String × Env)),
      (∀ iname nm fc, (iname, InputVal.nodeRef nm fc) ∈ inputs → (akeys fc).Nodup) →
      ∃ collected, collectLoop schema context inputs acc = Except.ok collected
        ∧ ∀ nm, (amem collected nm = true ↔ (amem acc nm = true ∨
            ∃ iname fc, (iname, InputVal.nodeRef nm fc) ∈ inputs
              ∧ amem context iname = false
              ∧ pyStartsWith iname "__node_" = true
              ∧ flowValues fc ≠ []
              ∧ claimKeeps schema (flowValues fc))) := by
  intro inputs
  induction inputs with
  | nil =>
    intro acc _
    refine ⟨acc, by simp [collectLoop], fun nm => ?_⟩
    simp
  | cons q rest ih =>
    intro acc hfc
    obtain ⟨iname, data⟩ := q
    have hfc2 : ∀ iname nm fc, (iname, InputVal.nodeRef nm fc) ∈ rest → (akeys fc).Nodup :=
      fun a b c hm => hfc a b c (List.mem_cons_of_mem _ hm)
    simp only [collectLoop]
    by_cases hctx : amem context iname = true
    · rw [if_pos hctx]
      obtain ⟨collected, hcol, hiff⟩ := ih acc hfc2
      refine ⟨collected, hcol, fun nm => ?_⟩
      rw [hiff nm]
      constructor
      · rintro (h | ⟨a, b, hm, hrest⟩)
        · exact Or.inl h
        · exact Or.inr ⟨a, b, List.mem_cons_of_mem _ hm, hrest⟩
      · rintro (h | ⟨a, b, hm, h1, h2, h3, h4⟩)
        · exact Or.inl h
        · rcases List.mem_cons.mp hm with he | hm2
          · exfalso
            have : a = iname := congrArg Prod.fst he
            rw [this] at h1
            rw [h1] at hctx
            exact Bool.false_ne_true hctx
          · exact Or.inr ⟨a, b, hm2, h1, h2, h3, h4⟩
    · rw [if_neg hctx]
      have hctxf : amem context iname = false := Bool.eq_false_iff.mpr hctx
      by_cases hpre : pyStartsWith iname "__node_" = true
      · rw [if_pos hpre]
        cases data with
        | ctxval v =>
          dsimp only
          obtain ⟨collected, hcol, hiff⟩ := ih acc hfc2
          refine ⟨collected, hcol, fun nm => ?_⟩
          rw [hiff nm]
          constructor
          · rintro (h | ⟨a, b, hm, hrest⟩)
            · exact Or.inl h
            · exact Or.inr ⟨a, b, List.mem_cons_of_mem _ hm, hrest⟩
          · rintro (h | ⟨a, b, hm, hrest⟩)
            · exact Or.inl h
            · rcases List.mem_cons.mp hm with he | hm2
              · exact absurd (congrArg Prod.snd he) (by simp)
              · exact Or.inr ⟨a, b, hm2, hrest⟩
        | nodeRef nm0 fc0 =>
          dsimp only
          have hfcn : (akeys (flowValues fc0)).Nodup := by
            rw [akeys_flowValues]
            exact hfc iname nm0 fc0 (List.mem_cons_self _ _)
          by_cases hemp : (flowValues fc0).isEmpty = true
          · rw [if_pos hemp]
            obtain ⟨collected, hcol, hiff⟩ := ih acc hfc2
            refine ⟨collected, hcol, fun nm => ?_⟩
            rw [hiff nm]
            have hempty : flowValues fc0 = [] := by
              cases hfv : flowValues fc0
              · rfl
              · rw [hfv] at hemp; simp at hemp
            constructor
            · rintro (h | ⟨a, b, hm, hrest⟩)
              · exact Or.inl h
              · exact Or.inr ⟨a, b, List.mem_cons_of_mem _ hm, hrest⟩
            · rintro (h | ⟨a, b, hm, h1, h2, h3, h4⟩)
              · exact Or.inl h
              · rcases List.mem_cons.mp hm with he | hm2
                · exfalso
                  have hb : InputVal.nodeRef nm b = InputVal.nodeRef nm0 fc0 :=
                    congrArg Prod.snd he
                  have : b = fc0 := by
                    injection hb with e1 e2
                  rw [this, hempty] at h3
                  exact h3 rfl
                · exact Or.inr ⟨a, b, hm2, h1, h2, h3, h4⟩
          · rw [if_neg hemp]
            rw [schemaFilterLoop_char schema hp (flowValues fc0) [] hfcn
              (fun x _ => rfl)]
            dsimp only
            simp only [List.nil_append]
            set sv := (flowValues fc0).filter (keepVar schema) with hsv
            by_cases hlen : sv.length = schema.length
            · rw [if_pos hlen]
              obtain ⟨collected, hcol, hiff⟩ := ih (aset acc nm0 sv) hfc2
              refine ⟨collected, hcol, fun nm => ?_⟩
              rw [hiff nm]
              rw [amem_aset]
              have hck : claimKeeps schema (flowValues fc0) :=
                (keep_count_iff schema (flowValues fc0) hs hfcn).mp hlen
              have hne : flowValues fc0 ≠ [] := by
                intro he
                rw [he] at hemp
                simp at hemp
              constructor
              · rintro (h | ⟨a, b, hm, hrest⟩)
                · simp only [Bool.or_eq_true, decide_eq_true_eq] at h
                  rcases h with h2 | h2
                  · exact Or.inl h2
                  · refine Or.inr ⟨iname, fc0, ?_, hctxf, hpre, hne, hck⟩
                    rw [← h2]
                    exact List.mem_cons_self _ _
                · exact Or.inr ⟨a, b, List.mem_cons_of_mem _ hm, hrest⟩
              · rintro (h | ⟨a, b, hm, h1, h2, h3, h4⟩)
                · exact Or.inl (by simp [h])
                · rcases List.mem_cons.mp hm with he | hm2
                  · have hb : InputVal.nodeRef nm b = InputVal.nodeRef nm0 fc0 :=
                      congrArg Prod.snd he
                    have hnm : nm = nm0 := by injection hb with e1 e2
                    exact Or.inl (by simp [hnm])
                  · exact Or.inr ⟨a, b, hm2, h1, h2, h3, h4⟩
            · rw [if_neg hlen]
              obtain ⟨collected, hcol, hiff⟩ := ih acc hfc2
              refine ⟨collected, hcol, fun nm => ?_⟩
              rw [hiff nm]
              constructor
              · rintro (h | ⟨a, b, hm, hrest⟩)
                · exact Or.inl h
                · exact Or.inr ⟨a, b, List.mem_cons_of_mem _ hm, hrest⟩
              · rintro (h | ⟨a, b, hm, h1, h2, h3, h4⟩)
                · exact Or.inl h
                · rcases List.mem_cons.mp hm with he | hm2
                  · exfalso
                    have hb : InputVal.nodeRef nm b = InputVal.nodeRef nm0 fc0 :=
                      congrArg Prod.snd he
                    have hbe : b = fc0 := by injection hb with e1 e2
                    rw [hbe] at h4
                    exact hlen ((keep_count_iff schema (flowValues fc0) hs hfcn).mpr h4)
                  · exact Or.inr ⟨a, b, hm2, h1, h2, h3, h4⟩
      · rw [if_neg hpre]
        obtain ⟨collected, hcol, hiff⟩ := ih acc hfc2
        refine ⟨collected, hcol, fun nm => ?_⟩
        rw [hiff nm]
        constructor
        · rintro (h | ⟨a, b, hm, hrest⟩)
          · exact Or.inl h
          · exact Or.inr ⟨a, b, List.mem_cons_of_mem _ hm, hrest⟩
        · rintro (h | ⟨a, b, hm, h1, h2, h3, h4⟩)
          · exact Or.inl h
          · rcases List.mem_cons.mp hm with he | hm2
            · exfalso
              have : a = iname := congrArg Prod.fst he
              rw [this] at h2
              exact hpre h2
            · exact Or.inr ⟨a, b, hm2, h1, h2, h3, h4⟩

/-- C7 counterexample: the claim states an iff quantified over every
Collection and every ancestor handle, but for a Collection with an EMPTY
`expected_input_schema` and an ancestor with an EMPTY flow-context the
right side holds vacuously while the code drops the ancestor (the
`if flow_context_values:` guard), so the ancestor is absent from the
collected map. -/
theorem C7_empty_schema_counterexample :
    collectLoop [] [] [("__node_Q", InputVal.nodeRef "Q" [])] [] = Except.ok []
    ∧ claimKeeps [] []
    ∧ amem ([] : List (String × Env)) "Q" = false :=
  ⟨rfl, fun p hp => absurd hp (List.not_mem_nil p), rfl⟩

/-- C7 (amended): for a Collection whose schema entries parse, an upstream
ancestor handle is present in the collected mapping iff its flow-context is
NONEMPTY and every variable declared in `expected_input_schema` is present
in it and individually passes its type check — all-or-nothing per source,
so an ancestor matching only part of the schema (or publishing only
unrelated variables, when the schema is nonempty) contributes nothing. -/
theorem C7_collection_all_or_nothing
    (schema : List (String × String)) (context : Env)
    (hs : (akeys schema).Nodup)
    (hp : ∀ p ∈ schema, ∃ sc, parseSchema p.2 = Except.ok sc)
    (inputs : Inputs)
    (hfc : ∀ iname nm fc, (iname, InputVal.nodeRef nm fc) ∈ inputs → (akeys fc).Nodup) :
    ∃ collected, collectLoop schema context inputs [] = Except.ok collected
      ∧ ∀ nm, (amem collected nm = true ↔
          ∃ iname fc, (iname, InputVal.nodeRef nm fc) ∈ inputs
            ∧ amem context iname = false
            ∧ pyStartsWith iname "__node_" = true
            ∧ flowValues fc ≠ []
            ∧ claimKeeps schema (flowValues fc)) := by
  obtain ⟨collected, hcol, hiff⟩ := collectLoop_char schema context hs hp inputs [] hfc
  refine ⟨collected, hcol, fun nm => ?_⟩
  rw [hiff nm]
  constructor
  · rintro (h | h)
    · simp [amem] at h
    · exact h
  · exact Or.inr

/-- Witness for `C7_collection_all_or_nothing`: the spec section 8 scenario
(`expected_input_schema={"v":"int"}`, ancestor `P` publishing `v=10`,
ancestor `Q` publishing only an unrelated variable) — `P` is collected,
`Q` is not. -/
theorem C7_collection_all_or_nothing_witness :
    ∃ collected,
      collectLoop [("v", "int")] []
        [("__node_P", InputVal.nodeRef "P" [("v", (PyValue.vint 10, "P", 0))]),
         ("__node_Q", InputVal.nodeRef "Q" [("w", (PyValue.vstr "x", "Q", 0))])] []
        = Except.ok collected
      ∧ ∀ nm, (amem collected nm = true ↔
          ∃ iname fc, (iname, InputVal.nodeRef nm fc)
              ∈ [("__node_P", InputVal.nodeRef "P" [("v", (PyValue.vint 10, "P", 0))]),
                 ("__node_Q", InputVal.nodeRef "Q" [("w", (PyValue.vstr "x", "Q", 0))])]
            ∧ amem ([] : Env) iname = false
            ∧ pyStartsWith iname "__node_" = true
            ∧ flowValues fc ≠ []
            ∧ claimKeeps [("v", "int")] (flowValues fc)) :=
  C7_collection_all_or_nothing [("v", "int")] [] (by simp [akeys])
    (fun p hp => by
      have h := List.mem_singleton.mp hp
      exact ⟨PySchema.valueSchema "int", by rw [h]; rfl⟩)
    _
    (fun iname nm fc hm => by
      rcases List.mem_cons.mp hm with h | h
      · injection congrArg Prod.snd h with e1 e2
        rw [e2]
        simp [akeys]
      · have h2 := List.mem_singleton.mp h
        injection congrArg Prod.snd h2 with e1 e2
        rw [e2]
        simp [akeys])

/-! ## Claim C8: BFS reachability and structure validation -/

theorem length_filter_le {α : Type} (P Q : α → Bool) (himp : ∀ x, Q x = true → P x = true) :
    ∀ l : List α, (l.filter Q).length ≤ (l.filter P).length := by
  intro l
  induction l with
  | nil => exact Nat.le_refl 0
  | cons x xs ih =>
    by_cases hq : Q x = true
    · rw [List.filter_cons_of_pos hq, List.filter_cons_of_pos (himp x hq)]
      exact Nat.succ_le_succ ih
    · rw [List.filter_cons_of_neg (by simpa using hq)]
      by_cases hp : P x = true
      · rw [List.filter_cons_of_pos hp]
        exact Nat.le_succ_of_le ih
      · rw [List.filter_cons_of_neg (by simpa using hp)]
        exact ih

theorem length_filter_lt {α : Type} (P Q : α → Bool) (himp : ∀ x, Q x = true → P x = true)
    (a : α) (hPa : P a = true) (hQa : Q a = false) :
    ∀ l : List α, a ∈ l → (l.filter Q).length < (l.filter P).length := by
  intro l
  induction l with
  | nil => intro h; simp at h
  | cons x xs ih =>
    intro hmem
    by_cases hq : Q x = true
    · have hxa : ¬ x = a := fun he => by rw [he, hQa] at hq; exact Bool.false_ne_true hq
      have hax : a ∈ xs := by
        rcases List.mem_cons.mp hmem with h | h
        · exact absurd h.symm hxa
        · exact h
      rw [List.filter_cons_of_pos hq, List.filter_cons_of_pos (himp x hq)]
      exact Nat.succ_lt_succ (ih hax)
    · rw [List.filter_cons_of_neg (by simpa using hq)]
      by_cases hp : P x = true
      · rw [List.filter_cons_of_pos hp]
        exact Nat.lt_succ_of_le (length_filter_le P Q himp xs)
      · have hxa : ¬ x = a := fun he => by rw [he, hPa] at hp; exact hp rfl
        have hax : a ∈ xs := by
          rcases List.mem_cons.mp hmem with h | h
          · exact absurd h.symm hxa
          · exact h
        rw [List.filter_cons_of_neg (by simpa using hp)]
        exact ih hax

theorem bfsLoop_post (dependencies : List (String × List String))
    (hnd : (akeys dependencies).Nodup) :
    ∀ (fuel : Nat) (queue reachable : List String),
      queue.length + ((startUniverse dependencies).filter
        (fun x => ¬ x ∈ reachable)).length * (dependencies.length + 1) ≤ fuel →
      (∀ q ∈ queue, q ∈ startUniverse dependencies) →
      (∀ r ∈ reachable, ReachableFromStart dependencies r) →
      (∀ q ∈ queue, ReachableFromStart dependencies q) →
      ("start_node" ∈ reachable ∨ "start_node" ∈ queue) →
      (∀ r ∈ reachable, ∀ p ∈ dependencies, r ∈ p.2 → p.1 ∈ reachable ∨ p.1 ∈ queue) →
      ((∀ x ∈ bfsLoop dependencies fuel queue reachable,
          ReachableFromStart dependencies x)
        ∧ "start_node" ∈ bfsLoop dependencies fuel queue reachable
        ∧ (∀ r ∈ bfsLoop dependencies fuel queue reachable, ∀ p ∈ dependencies,
            r ∈ p.2 → p.1 ∈ bfsLoop dependencies fuel queue reachable)) := by
  intro fuel
  induction fuel with
  | zero =>
    intro queue reachable hm h1 h2 h3 h4 h5
    have hq : queue = [] := by
      cases queue with
      | nil => rfl
      | cons a b => simp at hm
    subst hq
    refine ⟨h2, ?_, fun r hr p hp hrp => ?_⟩
    · rcases h4 with h | h
      · exact h
      · simp at h
    · rcases h5 r hr p hp hrp with h | h
      · exact h
      · simp at h
  | succ fuel ih =>
    intro queue reachable hm h1 h2 h3 h4 h5
    cases queue with
    | nil =>
      refine ⟨h2, ?_, fun r hr p hp hrp => ?_⟩
      · rcases h4 with h | h
        · exact h
        · simp at h
      · rcases h5 r hr p hp hrp with h | h
        · exact h
        · simp at h
    | cons current rest =>
      simp only [bfsLoop]
      by_cases hcur : current ∈ reachable
      · rw [if_pos hcur]
        refine ih rest reachable ?_ (fun q hq => h1 q (List.mem_cons_of_mem _ hq)) h2
          (fun q hq => h3 q (List.mem_cons_of_mem _ hq)) ?_ ?_
        · simp only [List.length_cons] at hm
          omega
        · rcases h4 with h | h
          · exact Or.inl h
          · rcases List.mem_cons.mp h with h | h
            · exact Or.inl (h ▸ hcur)
            · exact Or.inr h
        · intro r hr p hp hrp
          rcases h5 r hr p hp hrp with h | h
          · exact Or.inl h
          · rcases List.mem_cons.mp h with h | h
            · exact Or.inl (h ▸ hcur)
            · exact Or.inr h
      · rw [if_neg hcur]
        set children := (dependencies.filter (fun p => current ∈ p.2)).map
          (fun p => p.1) with hchildren
        have hchlen : children.length ≤ dependencies.length := by
          rw [hchildren, List.length_map]
          exact (List.filter_sublist dependencies).length_le
        have hcur_univ : current ∈ startUniverse dependencies :=
          h1 current (List.mem_cons_self _ _)
        have hcur_reach : ReachableFromStart dependencies current :=
          h3 current (List.mem_cons_self _ _)
        have hchild_edge : ∀ c ∈ children, ∃ p ∈ dependencies, p.1 = c ∧ current ∈ p.2 := by
          intro c hc
          rw [hchildren] at hc
          rcases List.mem_map.mp hc with ⟨p, hp, he⟩
          have := List.mem_filter.mp hp
          exact ⟨p, this.1, he, by simpa using this.2⟩
        have hchild_reach : ∀ c ∈ children, ReachableFromStart dependencies c := by
          intro c hc
          obtain ⟨p, hp, he, hcp⟩ := hchild_edge c hc
          refine Relation.ReflTransGen.tail hcur_reach ?_
          show depEdge dependencies current c
          unfold depEdge depsOf
          rw [← he, alookup_of_mem_nodup (show (p.1, p.2) ∈ dependencies by simpa using hp) hnd]
          exact hcp
        have hmeasure : (rest ++ children).length
            + ((startUniverse dependencies).filter
                (fun x => ¬ x ∈ reachable ++ [current])).length
              * (dependencies.length + 1) ≤ fuel := by
          have hpt : ∀ x : String, (¬ x ∈ reachable ++ [current] : Bool) = true →
              (¬ x ∈ reachable : Bool) = true := by
            intro x hx
            simp only [List.mem_append, List.mem_singleton, decide_eq_true_eq] at hx ⊢
            exact fun hr => hx (Or.inl hr)
          have hlt := length_filter_lt (fun x => (¬ x ∈ reachable : Bool))
            (fun x => (¬ x ∈ reachable ++ [current] : Bool)) hpt current
            (by simpa using hcur)
            (by simp)
            (startUniverse dependencies) hcur_univ
          have hmul := Nat.mul_le_mul_right (dependencies.length + 1)
            (Nat.succ_le_of_lt hlt)
          rw [List.length_append]
          simp only [List.length_cons] at hm
          rw [Nat.succ_mul] at hmul
          omega
        refine ih (rest ++ children) (reachable ++ [current]) hmeasure ?_ ?_ ?_ ?_ ?_
        · intro q hq
          rcases List.mem_append.mp hq with h | h
          · exact h1 q (List.mem_cons_of_mem _ h)
          · rcases hchild_edge q h with ⟨p, hp, he, _⟩
            exact List.mem_cons_of_mem _ (he ▸ List.mem_map.mpr ⟨p, hp, rfl⟩)
        · intro r hr
          rcases List.mem_append.mp hr with h | h
          · exact h2 r h
          · rw [List.mem_singleton.mp h]
            exact hcur_reach
        · intro q hq
          rcases List.mem_append.mp hq with h | h
          · exact h3 q (List.mem_cons_of_mem _ h)
          · exact hchild_reach q h
        · rcases h4 with h | h
          · exact Or.inl (List.mem_append.mpr (Or.inl h))
          · rcases List.mem_cons.mp h with h | h
            · exact Or.inl (List.mem_append.mpr (Or.inr (by simp [h])))
            · exact Or.inr (List.mem_append.mpr (Or.inl h))
        · intro r hr p hp hrp
          rcases List.mem_append.mp hr with h | h
          · rcases h5 r h p hp hrp with hh | hh
            · exact Or.inl (List.mem_append.mpr (Or.inl hh))
            · rcases List.mem_cons.mp hh with hh | hh
              · exact Or.inl (List.mem_append.mpr (Or.inr (by simp [hh])))
              · exact Or.inr (List.mem_append.mpr (Or.inl hh))
          · rw [List.mem_singleton.mp h] at hrp
            refine Or.inr (List.mem_append.mpr (Or.inr ?_))
            rw [hchildren]
            exact List.mem_map.mpr ⟨p, List.mem_filter.mpr ⟨hp, by simpa using hrp⟩, rfl⟩

theorem bfs_reachable_iff (dependencies : List (String × List String))
    (hnd : (akeys dependencies).Nodup) (x : String) :
    x ∈ bfsLoop dependencies (bfsFuel dependencies) ["start_node"] []
      ↔ ReachableFromStart dependencies x := by
  have hfuel : (["start_node"] : List String).length
      + ((startUniverse dependencies).filter (fun x => ¬ x ∈ ([] : List String))).length
        * (dependencies.length + 1) ≤ bfsFuel dependencies := by
    have hfe : (startUniverse dependencies).filter (fun x => ¬ x ∈ ([] : List String))
        = startUniverse dependencies := by
      refine List.filter_eq_self.mpr (fun a _ => by simp)
    rw [hfe]
    have : (startUniverse dependencies).length = dependencies.length + 1 := by
      unfold startUniverse akeys
      simp
    rw [this]
    have hl1 : (["start_node"] : List String).length = 1 := rfl
    rw [hl1]
    unfold bfsFuel
    omega
  obtain ⟨hsound, hstart, hclosed⟩ := bfsLoop_post dependencies hnd
    (bfsFuel dependencies) ["start_node"] [] hfuel
    (fun q hq => by rw [List.mem_singleton.mp hq]; exact List.mem_cons_self _ _)
    (fun r hr => absurd hr (List.not_mem_nil r))
    (fun q hq => by rw [List.mem_singleton.mp hq]; exact Relation.ReflTransGen.refl)
    (Or.inr (List.mem_cons_self _ _))
    (fun r hr => absurd hr (List.not_mem_nil r))
  constructor
  · exact hsound x
  · intro hreach
    unfold ReachableFromStart at hreach
    induction hreach with
    | refl => exact hstart
    | tail hab hedge ihd =>
      rename_i tgt
      unfold depEdge depsOf at hedge
      cases hl : alookup dependencies tgt with
      | none =>
        rw [hl, Option.getD_none] at hedge
        simp at hedge
      | some srcs =>
        rw [hl, Option.getD_some] at hedge
        exact hclosed _ ihd (tgt, srcs) (alookup_mem hl) hedge

theorem unreachableMsg_inj {a b : String} (h : unreachableMsg a = unreachableMsg b) :
    a = b := by
  unfold unreachableMsg at h
  have h2 := congrArg String.data h
  simp only [String.data_append] at h2
  have h3 := List.append_cancel_left h2
  cases a with
  | mk da => cases b with
    | mk db => simpa using congrArg String.mk h3

theorem unreachableMsg_ne_cycle (n : String) :
    ¬ unreachableMsg n = "Circular dependency detected" := by
  intro h
  have h2 := congrArg String.length h
  unfold unreachableMsg at h2
  rw [String.length_append] at h2
  have e1 : ("Unreachable node (not connected to start_node): " : String).length = 48 := rfl
  have e2 : ("Circular dependency detected" : String).length = 28 := rfl
  rw [e1, e2] at h2
  omega

theorem topological_sort_error_msg {nodes : List String}
    {deps : List (String × List String)} {e : String}
    (h : topological_sort nodes deps = Except.error e) :
    e = "Circular dependency detected" := by
  simp only [topological_sort] at h
  split at h
  · exact absurd h (by simp)
  · injection h with h2
    exact h2.symm

/-- C8: with `start_node` registered, `validate_structure` aggregates ALL
violations in one list instead of stopping at the first: the list contains
the unreachability message for exactly the registered nodes with no forward
path from `start_node` (independent of cycle status), contains the cycle
message exactly when the topological sort raises it, and the boolean is
true exactly when the list is empty. -/
theorem C8_validate_structure_aggregates
    (df : DataFlow)
    (hnd : (akeys df.dependencies).Nodup)
    (hstart : amem df.nodes "start_node" = true) :
    (∀ n, unreachableMsg n ∈ (df.validate_structure).2 ↔
        (n ∈ akeys df.nodes ∧ ¬ ReachableFromStart df.dependencies n))
    ∧ (("Circular dependency detected" ∈ (df.validate_structure).2) ↔
        topological_sort (akeys df.nodes) df.dependencies
          = Except.error "Circular dependency detected")
    ∧ ((df.validate_structure).1 = true ↔ (df.validate_structure).2 = []) := by
  have hRiff := bfs_reachable_iff df.dependencies hnd
  have hvs : df.validate_structure
      = (let errs1 := ((akeys df.nodes).filter (fun n =>
            ¬ n ∈ bfsLoop df.dependencies (bfsFuel df.dependencies)
              ["start_node"] [])).map unreachableMsg
         let errs2 := (match topological_sort (akeys df.nodes) df.dependencies with
           | Except.ok _ => ([] : List String)
           | Except.error e => [e])
         ((errs1 ++ errs2).isEmpty, errs1 ++ errs2)) := by
    unfold DataFlow.validate_structure
    rw [if_neg (not_not_intro hstart)]
  rw [hvs]
  simp only []
  refine ⟨?_, ?_, ?_⟩
  · intro n
    rw [List.mem_append]
    constructor
    · rintro (h | h)
      · rcases List.mem_map.mp h with ⟨m, hm, he⟩
        have hmn : m = n := unreachableMsg_inj he
        subst hmn
        have hmf := List.mem_filter.mp hm
        refine ⟨hmf.1, fun hreach => ?_⟩
        have hmem : m ∈ bfsLoop df.dependencies (bfsFuel df.dependencies)
            ["start_node"] [] := (hRiff m).mpr hreach
        have := hmf.2
        simp only [decide_eq_true_eq] at this
        exact this hmem
      · exfalso
        cases hsort : topological_sort (akeys df.nodes) df.dependencies with
        | ok order =>
          rw [hsort] at h
          simp at h
        | error e =>
          rw [hsort] at h
          have he := topological_sort_error_msg hsort
          rw [List.mem_singleton] at h
          exact unreachableMsg_ne_cycle n (h.trans he)
    · rintro ⟨hn, hnr⟩
      refine Or.inl (List.mem_map.mpr ⟨n, ?_, rfl⟩)
      refine List.mem_filter.mpr ⟨hn, ?_⟩
      simp only [decide_eq_true_eq]
      exact fun hmem => hnr ((hRiff n).mp hmem)
  · constructor
    · intro h
      rw [List.mem_append] at h
      rcases h with h | h
      · exfalso
        rcases List.mem_map.mp h with ⟨m, _, he⟩
        exact unreachableMsg_ne_cycle m he
      · cases hsort : topological_sort (akeys df.nodes) df.dependencies with
        | ok order =>
          rw [hsort] at h
          simp at h
        | error e =>
          rw [topological_sort_error_msg hsort]
    · intro h
      rw [List.mem_append, h]
      exact Or.inr (List.mem_singleton.mpr rfl)
  · exact List.isEmpty_iff

/-- Witness for `C8_validate_structure_aggregates`: a graph with one
unreachable node `a`. -/
theorem C8_validate_structure_aggregates_witness :
    (akeys ([("start_node", []), ("a", [])]
        : List (String × List String))).Nodup
    ∧ amem [("start_node", startNode),
        ("a", ({ name := "a", kind := NodeKind.logic } : PyNode))] "start_node" = true
    ∧ (∀ n, unreachableMsg n ∈ ((DataFlow.mk
          [("start_node", startNode), ("a", { name := "a", kind := NodeKind.logic })]
          [("start_node", []), ("a", [])]).validate_structure).2 ↔
        (n ∈ akeys ((DataFlow.mk
          [("start_node", startNode), ("a", { name := "a", kind := NodeKind.logic })]
          [("start_node", []), ("a", [])]).nodes)
          ∧ ¬ ReachableFromStart [("start_node", []), ("a", [])] n)) :=
  ⟨by decide, rfl,
   (C8_validate_structure_aggregates
      (DataFlow.mk
        [("start_node", startNode), ("a", { name := "a", kind := NodeKind.logic })]
        [("start_node", []), ("a", [])])
      (by decide) rfl).1⟩

/-! ## Claim C4 -/

theorem processChildren_spec (current : String) :
    ∀ (l : List (String × List String)), (akeys l).Nodup →
      ∀ (deg : String → Int) (queue : List String),
        (∀ x, (processChildren current l deg queue).1 x =
          if l.any (fun p => decide (p.1 = x) && decide (current ∈ p.2)) then deg x - 1
          else deg x)
        ∧ (processChildren current l deg queue).2 =
          queue ++ (l.filter
            (fun p => decide (current ∈ p.2) && decide (deg p.1 = 1))).map
            (fun p => p.1) := by
  intro l
  induction l with
  | nil =>
    intro _ deg queue
    exact ⟨fun x => by simp [processChildren], by simp [processChildren]⟩
  | cons p rest ih =>
    obtain ⟨c, srcs⟩ := p
    intro hk deg queue
    obtain ⟨hp1, hk2⟩ := List.nodup_cons.mp (show (c :: akeys rest).Nodup from hk)
    have hunf : processChildren current ((c, srcs) :: rest) deg queue =
        if current ∈ srcs then
          (if deg c - 1 = 0 then
            processChildren current rest
              (fun x => if x = c then deg c - 1 else deg x) (queue ++ [c])
          else
            processChildren current rest
              (fun x => if x = c then deg c - 1 else deg x) queue)
        else processChildren current rest deg queue := rfl
    rw [hunf]
    by_cases hcur : current ∈ srcs
    · rw [if_pos hcur]
      have hfc : ∀ q2 : List String,
          rest.filter (fun p => decide (current ∈ p.2) &&
            decide ((fun x => if x = c then deg c - 1 else deg x) p.1 = 1)) =
          rest.filter (fun p => decide (current ∈ p.2) && decide (deg p.1 = 1)) := by
        intro _
        apply List.filter_congr
        intro q hq
        have hqc : ¬ (q.1 = c) :=
          fun h => hp1 (h ▸ List.mem_map_of_mem (fun p => p.1) hq)
        simp [hqc]
      have hdegGoal : ∀ x,
          (processChildren current rest
            (fun y => if y = c then deg c - 1 else deg y)
            (if deg c - 1 = 0 then queue ++ [c] else queue)).1 x =
          if ((c, srcs) :: rest).any
              (fun p => decide (p.1 = x) && decide (current ∈ p.2)) then deg x - 1
          else deg x := by
        intro x
        obtain ⟨ihd, _⟩ := ih hk2 (fun y => if y = c then deg c - 1 else deg y)
          (if deg c - 1 = 0 then queue ++ [c] else queue)
        rw [ihd x]
        by_cases hxc : x = c
        · subst hxc
          have hanyf : rest.any
              (fun p => decide (p.1 = x) && decide (current ∈ p.2)) = false := by
            rw [List.any_eq_false]
            intro q hq
            simp only [Bool.and_eq_true, decide_eq_true_eq, not_and]
            intro h1 _
            exact hp1 (h1 ▸ List.mem_map_of_mem (fun p => p.1) hq)
          rw [hanyf]
          simp [hcur]
        · have hcx : ¬ (c = x) := fun h => hxc h.symm
          rw [List.any_cons, show (decide (c = x)) = false from decide_eq_false hcx,
            Bool.false_and, Bool.false_or]
          simp only [if_neg hxc]
      by_cases hdeg : deg c = 1
      · have hd0 : deg c - 1 = 0 := by omega
        rw [if_pos hd0]
        obtain ⟨_, ihq⟩ := ih hk2 (fun y => if y = c then deg c - 1 else deg y)
          (queue ++ [c])
        constructor
        · intro x
          have := hdegGoal x
          rw [if_pos hd0] at this
          exact this
        · rw [ihq, hfc queue,
            List.filter_cons_of_pos (by simp [hcur, hdeg]), List.map_cons]
          simp
      · have hd0 : ¬ (deg c - 1 = 0) := by omega
        rw [if_neg hd0]
        obtain ⟨_, ihq⟩ := ih hk2 (fun y => if y = c then deg c - 1 else deg y) queue
        constructor
        · intro x
          have := hdegGoal x
          rw [if_neg hd0] at this
          exact this
        · rw [ihq, hfc queue, List.filter_cons_of_neg (by simp [hdeg])]
    · rw [if_neg hcur]
      obtain ⟨ihd, ihq⟩ := ih hk2 deg queue
      constructor
      · intro x
        rw [ihd x]
        have hany : (((c, srcs) :: rest).any
            (fun p => decide (p.1 = x) && decide (current ∈ p.2))) =
            rest.any (fun p => decide (p.1 = x) && decide (current ∈ p.2)) := by
          simp [List.any_cons, hcur]
        rw [hany]
      · rw [ihq, List.filter_cons_of_neg (by simp [hcur])]

theorem filter_not_mem_snoc_length (res : List String) (c : String)
    (hcr : ¬ c ∈ res) :
    ∀ l : List String, l.Nodup → c ∈ l →
      ((l.filter (fun s => ¬ s ∈ res)).length : Int) - 1 =
        ((l.filter (fun s => ¬ s ∈ res ++ [c])).length : Int) := by
  intro l
  induction l with
  | nil => intro _ hc; simp at hc
  | cons a t ih =>
    intro hl hc
    obtain ⟨hat, htnd⟩ := List.nodup_cons.mp hl
    by_cases hac : a = c
    · subst hac
      rw [List.filter_cons_of_pos (by simp [hcr]),
        List.filter_cons_of_neg (by simp)]
      have ht : t.filter (fun s => ¬ s ∈ res ++ [a]) =
          t.filter (fun s => ¬ s ∈ res) := by
        apply List.filter_congr
        intro x hx
        have hxa : ¬ (x = a) := fun he => hat (he ▸ hx)
        simp [List.mem_append, hxa]
      rw [ht]
      simp
    · have hct : c ∈ t := by
        rcases List.mem_cons.mp hc with h | h
        · exact absurd h.symm hac
        · exact h
      by_cases har : a ∈ res
      · rw [List.filter_cons_of_neg (by simp [har]),
          List.filter_cons_of_neg (by simp [List.mem_append, har])]
        exact ih htnd hct
      · rw [List.filter_cons_of_pos (by simp [har]),
          List.filter_cons_of_pos (by simp [List.mem_append, har, hac])]
        have := ih htnd hct
        simp only [List.length_cons]
        omega

theorem depsOf_mem_nodes {deps : List (String × List String)} {nodes : List String}
    (hsrc : ∀ p ∈ deps, ∀ s ∈ p.2, s ∈ nodes) {n a : String}
    (ha : a ∈ depsOf deps n) : a ∈ nodes := by
  cases hdl : alookup deps n with
  | none => rw [depsOf, hdl] at ha; simp at ha
  | some l =>
    have hm := alookup_mem hdl
    rw [depsOf, hdl] at ha
    simp only [Option.getD_some] at ha
    exact hsrc _ hm a ha

theorem kahnLoop_post (deps : List (String × List String)) (nodes : List String)
    (hk : (akeys deps).Nodup)
    (hkeys : ∀ t ∈ akeys deps, t ∈ nodes)
    (hsnd : ∀ p ∈ deps, p.2.Nodup) :
    ∀ (fuel : Nat) (deg : String → Int) (queue result : List String),
      KInv deps nodes deg queue result →
      nodes.length ≤ fuel + result.length →
      ((kahnLoop deps fuel deg queue result).Nodup
        ∧ (∀ x ∈ kahnLoop deps fuel deg queue result, x ∈ nodes)
        ∧ respectsDeps deps (kahnLoop deps fuel deg queue result)
        ∧ ∀ n ∈ nodes, ¬ n ∈ kahnLoop deps fuel deg queue result →
            ∃ a ∈ depsOf deps n, ¬ a ∈ kahnLoop deps fuel deg queue result) := by
  intro fuel
  induction fuel with
  | zero =>
    intro deg queue result hinv hfuel
    have he : kahnLoop deps 0 deg queue result = result := rfl
    rw [he]
    obtain ⟨hrnd, hqnd, hdisj⟩ := List.nodup_append.mp hinv.nd
    have hsub : ∀ x ∈ result, x ∈ nodes :=
      fun x hx => hinv.sub x (List.mem_append_left _ hx)
    have hperm : result.Perm nodes :=
      (List.subperm_of_subset hrnd hsub).perm_of_length_le (by omega)
    exact ⟨hrnd, hsub, hinv.ordered,
      fun n hn hnr => absurd (hperm.mem_iff.mpr hn) hnr⟩
  | succ fuel ih =>
    intro deg queue result hinv hfuel
    match queue with
    | [] =>
      have he : kahnLoop deps (fuel + 1) deg [] result = result := rfl
      rw [he]
      obtain ⟨hrnd, hqnd, hdisj⟩ := List.nodup_append.mp hinv.nd
      have hsub : ∀ x ∈ result, x ∈ nodes :=
        fun x hx => hinv.sub x (List.mem_append_left _ hx)
      refine ⟨hrnd, hsub, hinv.ordered, ?_⟩
      intro n hn hnr
      by_contra hcon
      push_neg at hcon
      have hfe : (depsOf deps n).filter (fun s => ¬ s ∈ result) = [] := by
        rw [List.filter_eq_nil_iff]
        intro a ha
        simp [hcon a ha]
      have h0 := hinv.deg_eq n
      rw [hfe] at h0
      rcases hinv.zero_mem n hn (by simpa using h0) with h | h
      · exact hnr h
      · exact absurd h (List.not_mem_nil n)
    | current :: rest =>
      have hunf : kahnLoop deps (fuel + 1) deg (current :: rest) result =
          kahnLoop deps fuel (processChildren current deps deg rest).1
            (processChildren current deps deg rest).2 (result ++ [current]) := rfl
      rw [hunf]
      obtain ⟨hdegf, hqf⟩ := processChildren_spec current deps hk deg rest
      rw [hqf]
      set newq := (deps.filter
        (fun p => decide (current ∈ p.2) && decide (deg p.1 = 1))).map
        (fun p => p.1) with hnewqdef
      obtain ⟨hrnd, hcnd, hdisj⟩ := List.nodup_append.mp hinv.nd
      obtain ⟨hcr, hrestnd⟩ := List.nodup_cons.mp hcnd
      have hcurres : ¬ current ∈ result :=
        fun h => hdisj h (List.mem_cons_self _ _)
      have hZ : ∀ x, x ∈ result ∨ x ∈ current :: rest → deg x = 0 := by
        intro x hx
        have hall : ∀ a ∈ depsOf deps x, a ∈ result := by
          rcases hx with h | h
          · exact fun a ha => (hinv.ordered x h a ha).1
          · exact hinv.queue_ready x h
        have hfe : (depsOf deps x).filter (fun s => ¬ s ∈ result) = [] := by
          rw [List.filter_eq_nil_iff]
          intro a ha
          simp [hall a ha]
        have h0 := hinv.deg_eq x
        rw [hfe] at h0
        simpa using h0
      have hfresh : ∀ y ∈ newq,
          ¬ (y ∈ result ∨ y ∈ current :: rest) ∧ y ∈ akeys deps := by
        intro y hy
        rw [hnewqdef] at hy
        obtain ⟨p, hpf, hpy⟩ := List.mem_map.mp hy
        obtain ⟨hpdeps, hcond⟩ := List.mem_filter.mp hpf
        simp only [Bool.and_eq_true, decide_eq_true_eq] at hcond
        have hdp : deg p.1 = 1 := hcond.2
        rw [hpy] at hdp
        constructor
        · intro hmem
          have := hZ y hmem
          omega
        · rw [← hpy]
          exact List.mem_map_of_mem (fun p => p.1) hpdeps
      have hnqnd : newq.Nodup :=
        hk.sublist ((List.filter_sublist deps).map (fun p => p.1))
      have hinv2 : KInv deps nodes (processChildren current deps deg rest).1
          (rest ++ newq) (result ++ [current]) := by
        constructor
        · rw [show (result ++ [current]) ++ (rest ++ newq) =
            (result ++ current :: rest) ++ newq from by simp]
          exact List.nodup_append.mpr ⟨hinv.nd, hnqnd,
            fun a ha hb => (hfresh a hb).1 (List.mem_append.mp ha)⟩
        · intro x hx
          rcases List.mem_append.mp hx with h1 | h2
          · rcases List.mem_append.mp h1 with h | h
            · exact hinv.sub x (List.mem_append_left _ h)
            · have : x = current := by simpa using h
              rw [this]
              exact hinv.sub current (List.mem_append_right _ (List.mem_cons_self _ _))
          · rcases List.mem_append.mp h2 with h | h
            · exact hinv.sub x (List.mem_append_right _ (List.mem_cons_of_mem _ h))
            · exact hkeys x (hfresh x h).2
        · intro n
          rw [hdegf n]
          by_cases hany : deps.any
              (fun p => decide (p.1 = n) && decide (current ∈ p.2)) = true
          · rw [if_pos hany]
            obtain ⟨p, hpdeps, hpc⟩ := List.any_eq_true.mp hany
            simp only [Bool.and_eq_true, decide_eq_true_eq] at hpc
            obtain ⟨hpn, hcs⟩ := hpc
            have hlk : alookup deps p.1 = some p.2 :=
              alookup_of_mem_nodup (Prod.mk.eta.symm ▸ hpdeps) hk
            have hdn : depsOf deps n = p.2 := by
              rw [depsOf, ← hpn, hlk]
              simp
            rw [hinv.deg_eq n, hdn]
            exact filter_not_mem_snoc_length result current hcurres p.2
              (hsnd p hpdeps) hcs
          · rw [if_neg hany, hinv.deg_eq n]
            have hnc : ¬ current ∈ depsOf deps n := by
              intro hc
              cases hdl : alookup deps n with
              | none => rw [depsOf, hdl] at hc; simp at hc
              | some l =>
                have hmem := alookup_mem hdl
                rw [depsOf, hdl] at hc
                simp only [Option.getD_some] at hc
                exact hany (List.any_eq_true.mpr ⟨(n, l), hmem, by simp [hc]⟩)
            have hcong : (depsOf deps n).filter
                (fun s => ¬ s ∈ result ++ [current]) =
                (depsOf deps n).filter (fun s => ¬ s ∈ result) := by
              apply List.filter_congr
              intro a ha
              have hane : ¬ (a = current) := fun he => hnc (he ▸ ha)
              simp [List.mem_append, hane]
            rw [hcong]
        · intro q hq a ha
          rcases List.mem_append.mp hq with h | h
          · exact List.mem_append_left _
              (hinv.queue_ready q (List.mem_cons_of_mem _ h) a ha)
          · rw [hnewqdef] at h
            obtain ⟨p, hpf, hpy⟩ := List.mem_map.mp h
            obtain ⟨hpdeps, hcond⟩ := List.mem_filter.mp hpf
            simp only [Bool.and_eq_true, decide_eq_true_eq] at hcond
            obtain ⟨hcs, hd1⟩ := hcond
            have hlk : alookup deps p.1 = some p.2 :=
              alookup_of_mem_nodup (Prod.mk.eta.symm ▸ hpdeps) hk
            have hdq : depsOf deps q = p.2 := by
              rw [← hpy, depsOf, hlk]
              simp
            rw [hdq] at ha
            have hlen : (p.2.filter (fun s => ¬ s ∈ result)).length = 1 := by
              have hde := hinv.deg_eq p.1
              have hdp2 : depsOf deps p.1 = p.2 := by
                rw [depsOf, hlk]
                simp
              rw [hd1, hdp2] at hde
              omega
            obtain ⟨b, hb⟩ := List.length_eq_one.mp hlen
            have hcb : current ∈ p.2.filter (fun s => ¬ s ∈ result) :=
              List.mem_filter.mpr ⟨hcs, by simp [hcurres]⟩
            rw [hb] at hcb
            have hbc : b = current := by
              have : current = b := by simpa using hcb
              exact this.symm
            by_cases haf : a ∈ p.2.filter (fun s => ¬ s ∈ result)
            · rw [hb] at haf
              have hab : a = b := by simpa using haf
              rw [hab, hbc]
              exact List.mem_append_right _ (List.mem_cons_self _ _)
            · have hna2 : a ∈ result := by
                by_contra hna
                exact haf (List.mem_filter.mpr ⟨ha, by simpa using hna⟩)
              exact List.mem_append_left _ hna2
        · intro b hb a ha
          rcases List.mem_append.mp hb with h | h
          · obtain ⟨ham, hidx⟩ := hinv.ordered b h a ha
            refine ⟨List.mem_append_left _ ham, ?_⟩
            rw [List.indexOf_append_of_mem ham, List.indexOf_append_of_mem h]
            exact hidx
          · have hbcur : b = current := by simpa using h
            subst hbcur
            have ham : a ∈ result :=
              hinv.queue_ready b (List.mem_cons_self _ _) a ha
            refine ⟨List.mem_append_left _ ham, ?_⟩
            rw [List.indexOf_append_of_mem ham,
              List.indexOf_append_of_not_mem hcurres]
            have h1 : result.indexOf a < result.length :=
              List.indexOf_lt_length.mpr ham
            have h2 : ([b].indexOf b) = 0 := by simp
            omega
        · intro n hn h0
          rw [hdegf n] at h0
          by_cases hany : deps.any
              (fun p => decide (p.1 = n) && decide (current ∈ p.2)) = true
          · rw [if_pos hany] at h0
            have hd1 : deg n = 1 := by omega
            obtain ⟨p, hpdeps, hpc⟩ := List.any_eq_true.mp hany
            simp only [Bool.and_eq_true, decide_eq_true_eq] at hpc
            obtain ⟨hpn, hcs⟩ := hpc
            right
            refine List.mem_append_right _ ?_
            rw [hnewqdef]
            refine List.mem_map.mpr ⟨p, ?_, hpn⟩
            refine List.mem_filter.mpr ⟨hpdeps, ?_⟩
            simp only [Bool.and_eq_true, decide_eq_true_eq]
            exact ⟨hcs, hpn.symm ▸ hd1⟩
          · rw [if_neg hany] at h0
            rcases hinv.zero_mem n hn h0 with h | h
            · exact Or.inl (List.mem_append_left _ h)
            · rcases List.mem_cons.mp h with h | h
              · exact Or.inl (List.mem_append_right _
                  (by rw [h]; exact List.mem_cons_self _ _))
              · exact Or.inr (List.mem_append_left _ h)
      refine ih (processChildren current deps deg rest).1 (rest ++ newq)
        (result ++ [current]) hinv2 ?_
      rw [List.length_append]
      simp only [List.length_cons, List.length_nil]
      omega

theorem respectsDeps_transGen {deps : List (String × List String)}
    {order : List String} (ho : respectsDeps deps order) {a b : String}
    (h : Relation.TransGen (depEdge deps) a b) :
    b ∈ order → a ∈ order ∧ order.indexOf a < order.indexOf b := by
  induction h with
  | single he =>
    intro hb
    exact ho _ hb _ he
  | tail hab hbc ihab =>
    intro hc
    obtain ⟨hbm, hlt⟩ := ho _ hc _ hbc
    obtain ⟨ham, hlt2⟩ := ihab hbm
    exact ⟨ham, hlt2.trans hlt⟩

theorem topological_sort_spec (nodes : List String)
    (deps : List (String × List String))
    (hn : nodes.Nodup) (hk : (akeys deps).Nodup)
    (hkeys : ∀ t ∈ akeys deps, t ∈ nodes)
    (hsrc : ∀ p ∈ deps, ∀ s ∈ p.2, s ∈ nodes)
    (hsnd : ∀ p ∈ deps, p.2.Nodup) :
    (¬ HasCycle deps → ∃ order, topological_sort nodes deps = Except.ok order
      ∧ order.Perm nodes ∧ respectsDeps deps order)
    ∧ (HasCycle deps →
      topological_sort nodes deps = Except.error "Circular dependency detected") := by
  set out := kahnLoop deps nodes.length
    (fun n => ((depsOf deps n).length : Int))
    (nodes.filter (fun n => ((depsOf deps n).length : Int) = 0)) [] with houtdef
  have hts : topological_sort nodes deps =
      if out.length = nodes.length then Except.ok out
      else Except.error "Circular dependency detected" := rfl
  have hinv0 : KInv deps nodes (fun n => ((depsOf deps n).length : Int))
      (nodes.filter (fun n => ((depsOf deps n).length : Int) = 0)) [] := by
    constructor
    · simpa using hn.filter _
    · intro x hx
      simp only [List.nil_append] at hx
      exact List.mem_of_mem_filter hx
    · intro n
      simp
    · intro q hq a ha
      have h0 : ((depsOf deps q).length : Int) = 0 :=
        of_decide_eq_true (List.mem_filter.mp hq).2
      have hdq : depsOf deps q = [] := List.eq_nil_of_length_eq_zero (by omega)
      rw [hdq] at ha
      exact absurd ha (List.not_mem_nil a)
    · intro b hb
      exact absurd hb (List.not_mem_nil b)
    · intro n hn0 h0
      exact Or.inr (List.mem_filter.mpr ⟨hn0, decide_eq_true h0⟩)
  obtain ⟨hnd, hsub, hord, hpend⟩ := kahnLoop_post deps nodes hk hkeys hsnd
    nodes.length (fun n => ((depsOf deps n).length : Int))
    (nodes.filter (fun n => ((depsOf deps n).length : Int) = 0)) [] hinv0 (by simp)
  rw [← houtdef] at hnd hsub hord hpend
  constructor
  · intro hnc
    have hlen : out.length = nodes.length := by
      by_contra hne
      have hle : out.length ≤ nodes.length :=
        (List.subperm_of_subset hnd hsub).length_le
      have hex : ∃ n, n ∈ nodes ∧ ¬ n ∈ out := by
        by_contra hall
        push_neg at hall
        have hsp : nodes.Subperm out :=
          List.subperm_of_subset hn (fun a ha => hall a ha)
        have := hsp.length_le
        omega
      obtain ⟨n0, hn0, hn0o⟩ := hex
      have hstep : ∀ x : {x : String // x ∈ nodes ∧ ¬ x ∈ out},
          ∃ y : {y : String // y ∈ nodes ∧ ¬ y ∈ out},
            depEdge deps y.val x.val := by
        rintro ⟨x, hxn, hxo⟩
        obtain ⟨a, ha, hao⟩ := hpend x hxn hxo
        exact ⟨⟨a, depsOf_mem_nodes hsrc ha, hao⟩, ha⟩
      choose F hF using hstep
      have hsucc : ∀ k : Nat,
          depEdge deps (F^[k + 1] ⟨n0, hn0, hn0o⟩).val (F^[k] ⟨n0, hn0, hn0o⟩).val := by
        intro k
        rw [Function.iterate_succ_apply' F k _]
        exact hF _
      have hchain : ∀ j i : Nat, i < j →
          Relation.TransGen (depEdge deps)
            (F^[j] ⟨n0, hn0, hn0o⟩).val (F^[i] ⟨n0, hn0, hn0o⟩).val := by
        intro j
        induction j with
        | zero => intro i hi; exact absurd hi (Nat.not_lt_zero i)
        | succ j ihj =>
          intro i hi
          rcases Nat.lt_succ_iff_lt_or_eq.mp hi with h | h
          · exact (Relation.TransGen.single (hsucc j)).trans (ihj i h)
          · subst h
            exact Relation.TransGen.single (hsucc i)
      have hmapsto : ∀ k ∈ Finset.range (nodes.length + 1),
          (F^[k] ⟨n0, hn0, hn0o⟩).val ∈ nodes.toFinset :=
        fun k _ => List.mem_toFinset.mpr (F^[k] ⟨n0, hn0, hn0o⟩).2.1
      have hcard : nodes.toFinset.card < (Finset.range (nodes.length + 1)).card := by
        rw [Finset.card_range]
        exact Nat.lt_succ_of_le nodes.toFinset_card_le
      obtain ⟨i, hi, j, hj, hij, hgij⟩ :=
        Finset.exists_ne_map_eq_of_card_lt_of_maps_to hcard hmapsto
      rcases Nat.lt_or_ge i j with h | h
      · have htg := hchain j i h
        rw [hgij] at htg
        exact hnc ⟨_, htg⟩
      · have h2 : j < i := by omega
        have htg := hchain i j h2
        rw [hgij] at htg
        exact hnc ⟨_, htg⟩
    refine ⟨out, ?_, ?_, hord⟩
    · rw [hts, if_pos hlen]
    · exact (List.subperm_of_subset hnd hsub).perm_of_length_le (by omega)
  · intro hc
    obtain ⟨x, hx⟩ := hc
    rw [hts]
    have hxn : x ∈ nodes := by
      have hedge : ∃ b, depEdge deps b x := by
        cases hx with
        | single h => exact ⟨_, h⟩
        | tail _ h => exact ⟨_, h⟩
      obtain ⟨b, hb⟩ := hedge
      cases hdl : alookup deps x with
      | none =>
        rw [depEdge, depsOf, hdl] at hb
        simp at hb
      | some l =>
        have hm := alookup_mem hdl
        exact hkeys x (List.mem_map.mpr ⟨(x, l), hm, rfl⟩)
    have hne : ¬ out.length = nodes.length := by
      intro hlen
      have hperm : out.Perm nodes :=
        (List.subperm_of_subset hnd hsub).perm_of_length_le (by omega)
      have hxo : x ∈ out := hperm.mem_iff.mpr hxn
      obtain ⟨_, hlt⟩ := respectsDeps_transGen hord hx hxo
      exact absurd hlt (lt_irrefl _)
    rw [if_neg hne]

/-- C4: under the `DataFlow` registration invariant (which `add_node`,
`add_dependency`, `remove_node` and `remove_dependency` maintain, see
`C10_dataflow_invariant`), `get_execution_order` returns, for every acyclic
dependency definition, a permutation of all registered node names in which
every source node precedes each node that depends on it; for every
definition containing a dependency cycle it raises the circular-dependency
error instead of returning an order. -/
theorem C4_execution_order (df : DataFlow) (hinv : DFInv df) :
    (¬ HasCycle df.dependencies →
      ∃ order, df.get_execution_order = Except.ok order
        ∧ order.Perm (akeys df.nodes) ∧ respectsDeps df.dependencies order)
    ∧ (HasCycle df.dependencies →
      df.get_execution_order = Except.error "Circular dependency detected") :=
  topological_sort_spec (akeys df.nodes) df.dependencies hinv.keys_nodup
    hinv.dep_keys_nodup hinv.dep_keys_registered hinv.sources_registered
    hinv.sources_nodup

/-- Witness for `C4_execution_order`: the acyclic flow
start_node -> a -> b admits an execution order that is a permutation of its
node names respecting the dependencies, and the two-node cyclic flow
raises the circular-dependency error. -/
theorem C4_execution_order_witness :
    (∃ order, DataFlow.get_execution_order c4Flow = Except.ok order
      ∧ order.Perm (akeys c4Flow.nodes) ∧ respectsDeps c4Flow.dependencies order)
    ∧ DataFlow.get_execution_order c4FlowCyc =
        Except.error "Circular dependency detected" := by
  constructor
  · refine (C4_execution_order c4Flow
      ⟨by decide, by decide, by decide, by decide, by decide⟩).1 ?_
    rintro ⟨x, hx⟩
    have hxmem : x ∈ ["start_node", "a", "b"] := by
      have hedge : ∃ b, depEdge c4Flow.dependencies b x := by
        cases hx with
        | single h => exact ⟨_, h⟩
        | tail _ h => exact ⟨_, h⟩
      obtain ⟨b, hb⟩ := hedge
      cases hdl : alookup c4Flow.dependencies x with
      | none =>
        rw [depEdge, depsOf, hdl] at hb
        simp at hb
      | some l =>
        have hm := alookup_mem hdl
        have hxk : x ∈ akeys c4Flow.dependencies :=
          List.mem_map.mpr ⟨(x, l), hm, rfl⟩
        have hall : ∀ t ∈ akeys c4Flow.dependencies,
            t ∈ ["start_node", "a", "b"] := by decide
        exact hall x hxk
    have hordc : respectsDeps c4Flow.dependencies ["start_node", "a", "b"] := by
      unfold respectsDeps
      decide
    obtain ⟨_, hlt⟩ := respectsDeps_transGen hordc hx hxmem
    exact absurd hlt (lt_irrefl _)
  · refine (C4_execution_order c4FlowCyc
      ⟨by decide, by decide, by decide, by decide, by decide⟩).2 ?_
    have h1 : depEdge c4FlowCyc.dependencies "a" "b" := by
      unfold depEdge
      decide
    have h2 : depEdge c4FlowCyc.dependencies "b" "a" := by
      unfold depEdge
      decide
    exact ⟨"a", Relation.TransGen.tail (Relation.TransGen.single h1) h2⟩

/-! ## Claim C3 -/

theorem execute_ok_inv (st : EngineState) (interp : HostInterp) (context : Env)
    (clock : Nat) (st2 : EngineState) (c2 : Nat)
    (h : RuleEngine.execute st interp context clock = Except.ok (st2, c2)) :
    (DataFlow.validate_structure st.data_flow).1 = true
    ∧ ∃ order, DataFlow.get_execution_order st.data_flow = Except.ok order
      ∧ (st2, c2) = engineRunLoop interp order { st with context := context } clock := by
  simp only [RuleEngine.execute] at h
  split at h
  · cases h
  · rename_i hcond
    split at h
    · cases h
    · rename_i order horder
      injection h with h2
      exact ⟨not_not.mp hcond, order, horder, h2.symm⟩

/-- C3 counterexample: `execute` never clears the previous
`execution_results` — after a successful run of an engine holding a stale
entry keyed `ghost`, the returned results map still contains `ghost`, which
is not a registered node, so the map does not hold exactly one result per
currently registered node. -/
theorem C3_stale_results_counterexample :
    ∃ out, RuleEngine.execute c3Engine trivialInterp [] 0 = Except.ok out
      ∧ amem out.1.execution_results "ghost" = true
      ∧ amem c3Engine.data_flow.nodes "ghost" = false
      ∧ amem out.1.execution_results "start_node" = true :=
  ⟨_, rfl, rfl, rfl, rfl⟩

/-- C3 (amended): a structural-validation failure makes `execute` abort
with only the violation message, before any node runs; a completed run
writes one result per member of the execution order — a permutation of all
registered node names — ON TOP of the previous results map, which is never
cleared, so the final key set is the union of the stale keys and the
registered nodes (one result per registered node exactly when the engine
started with empty results). -/
theorem C3_execute_results_population :
    (∀ (st : EngineState) (interp : HostInterp) (context : Env) (clock : Nat),
      ¬ (DataFlow.validate_structure st.data_flow).1 = true →
      RuleEngine.execute st interp context clock = Except.error
        ("Rule engine validation failed: "
          ++ String.intercalate "; " (DataFlow.validate_structure st.data_flow).2))
    ∧ (∀ (st : EngineState) (interp : HostInterp) (context : Env) (clock : Nat)
        (st2 : EngineState) (c2 : Nat), DFInv st.data_flow →
        RuleEngine.execute st interp context clock = Except.ok (st2, c2) →
        ∀ x, amem st2.execution_results x = true ↔
          (amem st.execution_results x = true ∨ x ∈ akeys st.data_flow.nodes)) := by
  constructor
  · intro st interp context clock hv
    simp only [RuleEngine.execute]
    rw [if_pos hv]
  · intro st interp context clock st2 c2 hdfinv hok
    obtain ⟨hv, order, horder, hout⟩ :=
      execute_ok_inv st interp context clock st2 c2 hok
    have hspec := topological_sort_spec (akeys st.data_flow.nodes)
      st.data_flow.dependencies hdfinv.keys_nodup hdfinv.dep_keys_nodup
      hdfinv.dep_keys_registered hdfinv.sources_registered hdfinv.sources_nodup
    have horder2 : topological_sort (akeys st.data_flow.nodes)
        st.data_flow.dependencies = Except.ok order := horder
    have hnc : ¬ HasCycle st.data_flow.dependencies := by
      intro hc
      have herr := hspec.2 hc
      rw [herr] at horder2
      cases horder2
    obtain ⟨order2, hok2, hperm, _⟩ := hspec.1 hnc
    rw [hok2] at horder2
    injection horder2 with heq
    rw [heq] at hperm
    intro x
    have hres : st2.execution_results =
        (engineRunLoop interp order { st with context := context } clock).1.execution_results :=
      congrArg (fun p => p.1.execution_results) hout
    rw [hres, engineRunLoop_amem]
    constructor
    · rintro (h | h)
      · exact Or.inl h
      · exact Or.inr (hperm.mem_iff.mp h)
    · rintro (h | h)
      · exact Or.inl h
      · exact Or.inr (hperm.mem_iff.mpr h)

/-- Witness for `C3_execute_results_population`: the engine with no
`start_node` aborts with the aggregated violation message, and the
stale-entry engine completes with the key-set union characterization
instantiated at the stale key `ghost`. -/
theorem C3_execute_results_population_witness :
    (RuleEngine.execute c3BadEngine trivialInterp [] 0 = Except.error
      ("Rule engine validation failed: "
        ++ String.intercalate "; " (DataFlow.validate_structure c3BadEngine.data_flow).2))
    ∧ ∃ st2 c2, RuleEngine.execute c3Engine trivialInterp [] 0 = Except.ok (st2, c2)
      ∧ (amem st2.execution_results "ghost" = true ↔
        (amem c3Engine.execution_results "ghost" = true
          ∨ "ghost" ∈ akeys c3Engine.data_flow.nodes)) := by
  constructor
  · exact C3_execute_results_population.1 c3BadEngine trivialInterp [] 0 (by decide)
  · obtain ⟨st2, c2, hout⟩ : ∃ st2 c2,
        RuleEngine.execute c3Engine trivialInterp [] 0 = Except.ok (st2, c2) :=
      ⟨_, _, rfl⟩
    exact ⟨st2, c2, hout, C3_execute_results_population.2 c3Engine trivialInterp [] 0
      st2 c2 ⟨by decide, by decide, by decide, by decide, by decide⟩ hout "ghost"⟩

/-! ## Claim C9 -/

theorem import_from_json_eq (cfg : EngineConfig) :
    import_from_json cfg
      = importDepsFold cfg.dependencies
          (importNodesFold cfg.nodes (RuleEngine.new cfg.name)) := rfl

theorem alookup_map_snd {α β : Type} (g : α → β) (k : String) :
    ∀ l : List (String × α),
      alookup (l.map (fun p => (p.1, g p.2))) k = (alookup l k).map g := by
  intro l
  induction l with
  | nil => rfl
  | cons p rest ih =>
    rw [List.map_cons, alookup_cons, alookup_cons]
    by_cases hp : p.1 = k
    · simp [hp]
    · simp [hp, ih]

theorem alookup_aerase_ne {α : Type} {s k : String} (hne : ¬ k = s) :
    ∀ l : List (String × α), alookup (aerase l s) k = alookup l k := by
  intro l
  induction l with
  | nil => rfl
  | cons p rest ih =>
    unfold aerase
    rw [List.filter_cons]
    by_cases hp : p.1 = s
    · rw [if_neg (by simp [hp]), alookup_cons]
      have hpk : ¬ p.1 = k := fun h => hne (show k = s from h ▸ hp)
      rw [if_neg hpk]
      exact ih
    · rw [if_pos (by simp [hp]), alookup_cons, alookup_cons]
      by_cases hpk : p.1 = k
      · rw [if_pos hpk, if_pos hpk]
      · rw [if_neg hpk, if_neg hpk]
        exact ih

theorem configToNode_name {k : String} {nc : NodeConfig} {nd : PyNode}
    (h : configToNode k nc = some nd) : nd.name = k := by
  simp only [configToNode] at h
  by_cases h1 : nc.type = "LogicNode"
  · rw [if_pos h1] at h
    injection h with h2
    rw [← h2]
  · rw [if_neg h1] at h
    by_cases h2 : nc.type = "GateNode"
    · rw [if_pos h2] at h
      injection h with h3
      rw [← h3]
    · rw [if_neg h2] at h
      by_cases h3 : nc.type = "CollectionNode"
      · rw [if_pos h3] at h
        injection h with h4
        rw [← h4]
      · rw [if_neg h3] at h
        exact Option.noConfusion h

theorem configToNode_nodeToConfig (k : String) (node : PyNode)
    (hk : ¬ node.kind = NodeKind.start) :
    ∃ nd, configToNode k (nodeToConfig node) = some nd
      ∧ nd.name = k
      ∧ nd.kind = node.kind
      ∧ nd.tracked_variables = node.tracked_variables
      ∧ nd.expected_input_schema = node.expected_input_schema
      ∧ ((node.kind = NodeKind.logic ∨ node.kind = NodeKind.collection) →
          nd.logic_code = node.logic_code)
      ∧ (node.kind = NodeKind.gate → nd.condition = node.condition) := by
  cases hknd : node.kind with
  | start => exact absurd hknd hk
  | logic =>
    refine ⟨{ name := k, kind := NodeKind.logic,
              tracked_variables := node.tracked_variables,
              expected_input_schema := node.expected_input_schema,
              logic_code := node.logic_code }, ?_, rfl, rfl, rfl, rfl,
            fun _ => rfl, fun h => NodeKind.noConfusion h⟩
    simp only [configToNode, nodeToConfig, hknd, NodeKind.className]
    rfl
  | gate =>
    refine ⟨{ name := k, kind := NodeKind.gate,
              tracked_variables := node.tracked_variables,
              expected_input_schema := node.expected_input_schema,
              condition := node.condition }, ?_, rfl, rfl, rfl, rfl,
            fun h => h.elim (fun h2 => NodeKind.noConfusion h2)
              (fun h2 => NodeKind.noConfusion h2),
            fun _ => rfl⟩
    simp only [configToNode, nodeToConfig, hknd, NodeKind.className]
    rfl
  | collection =>
    refine ⟨{ name := k, kind := NodeKind.collection,
              tracked_variables := node.tracked_variables,
              expected_input_schema := node.expected_input_schema,
              logic_code := node.logic_code }, ?_, rfl, rfl, rfl, rfl,
            fun _ => rfl, fun h => NodeKind.noConfusion h⟩
    simp only [configToNode, nodeToConfig, hknd, NodeKind.className]
    rfl

theorem add_dependency_spec {df : DataFlow} {s t0 : String}
    (hs : amem df.nodes s = true) (ht : amem df.nodes t0 = true)
    (hnew : ¬ s ∈ depsOf df.dependencies t0) :
    ∃ df2, DataFlow.add_dependency df s t0 = Except.ok df2
      ∧ df2.nodes = df.nodes
      ∧ ∀ t, depsOf df2.dependencies t =
          (if t = t0 then depsOf df.dependencies t ++ [s]
           else depsOf df.dependencies t) := by
  have hboth : (amem df.nodes s && amem df.nodes t0) = true := by
    rw [hs, ht]
    rfl
  simp only [DataFlow.add_dependency]
  rw [if_neg (not_not_intro hboth)]
  by_cases hk : amem df.dependencies t0 = true
  · rw [if_pos hk]
    have hnew2 : ¬ s ∈ (alookup df.dependencies t0).getD [] := hnew
    rw [if_neg hnew2]
    refine ⟨_, rfl, rfl, ?_⟩
    intro t
    by_cases htt : t = t0
    · subst htt
      rw [if_pos rfl]
      simp only [depsOf]
      rw [alookup_aset_self]
      rfl
    · rw [if_neg htt]
      simp only [depsOf]
      rw [alookup_aset_ne _ _ (fun h => htt h.symm)]
  · rw [if_neg hk]
    have hkf : amem df.dependencies t0 = false := by
      cases h2 : amem df.dependencies t0
      · rfl
      · exact absurd h2 hk
    have hlkn : alookup df.dependencies t0 = Option.none :=
      alookup_eq_none_of_amem_false hkf
    have hcur : (alookup (df.dependencies ++ [(t0, ([] : List String))]) t0).getD []
        = [] := by
      rw [alookup_append, hlkn]
      simp [alookup_cons]
    rw [hcur, if_neg (List.not_mem_nil s)]
    refine ⟨_, rfl, rfl, ?_⟩
    intro t
    by_cases htt : t = t0
    · subst htt
      rw [if_pos rfl]
      simp only [depsOf]
      rw [alookup_aset_self, hlkn]
      rfl
    · rw [if_neg htt]
      simp only [depsOf]
      rw [alookup_aset_ne _ _ (fun h => htt h.symm), alookup_append]
      have h2 : alookup ([(t0, ([] : List String))]) t = Option.none := by
        rw [alookup_cons, if_neg (fun h => htt h.symm)]
        rfl
      cases halk : alookup df.dependencies t <;> simp [h2]

theorem importNodesFold_spec :
    ∀ (l : List (String × NodeConfig)) (st : EngineState),
      (akeys l).Nodup →
      (∀ p ∈ l, ∃ nd, configToNode p.1 p.2 = some nd) →
      (∀ p ∈ l, amem st.data_flow.nodes p.1 = false) →
      akeys (importNodesFold l st).data_flow.nodes
          = akeys st.data_flow.nodes ++ akeys l
      ∧ (∀ k, ¬ k ∈ akeys l →
          alookup (importNodesFold l st).data_flow.nodes k
            = alookup st.data_flow.nodes k)
      ∧ (∀ p ∈ l, alookup (importNodesFold l st).data_flow.nodes p.1
            = configToNode p.1 p.2)
      ∧ ((∀ q ∈ st.data_flow.dependencies, q.2 = ([] : List String)) →
          ∀ q ∈ (importNodesFold l st).data_flow.dependencies, q.2 = []) := by
  intro l
  induction l with
  | nil =>
    intro st _ _ _
    refine ⟨by simp [importNodesFold, akeys], fun k _ => rfl,
      fun p hp => absurd hp (List.not_mem_nil p), fun h => h⟩
  | cons p0 rest ih =>
    obtain ⟨k0, nc0⟩ := p0
    intro st hnd hcfg hfresh
    obtain ⟨hk0r, hndr⟩ := List.nodup_cons.mp (show (k0 :: akeys rest).Nodup from hnd)
    obtain ⟨nd0, hnd0⟩ := hcfg (k0, nc0) (List.mem_cons_self _ _)
    have hname0 : nd0.name = k0 := configToNode_name hnd0
    have hfr0 : amem st.data_flow.nodes k0 = false :=
      hfresh (k0, nc0) (List.mem_cons_self _ _)
    have hstep : importNodesFold ((k0, nc0) :: rest) st
        = importNodesFold rest { st with data_flow := st.data_flow.add_node nd0 } := by
      simp only [importNodesFold, List.foldl_cons, hnd0]
    have hn1 : ({ st with data_flow := st.data_flow.add_node nd0 }
        : EngineState).data_flow.nodes = aset st.data_flow.nodes k0 nd0 := by
      show (st.data_flow.add_node nd0).nodes = _
      simp only [DataFlow.add_node]
      rw [hname0]
    have hd1 : ({ st with data_flow := st.data_flow.add_node nd0 }
        : EngineState).data_flow.dependencies
        = aset st.data_flow.dependencies k0 [] := by
      show (st.data_flow.add_node nd0).dependencies = _
      simp only [DataFlow.add_node]
      rw [hname0]
    have hfresh1 : ∀ p ∈ rest,
        amem ({ st with data_flow := st.data_flow.add_node nd0 }
          : EngineState).data_flow.nodes p.1 = false := by
      intro p hp
      rw [hn1, amem_aset]
      have h1 : amem st.data_flow.nodes p.1 = false :=
        hfresh p (List.mem_cons_of_mem _ hp)
      have h2 : ¬ (k0 = p.1) :=
        fun he => hk0r (he ▸ List.mem_map_of_mem (fun p => p.1) hp)
      simp [h1, h2]
    obtain ⟨iha, ihb, ihc, ihd⟩ := ih { st with data_flow := st.data_flow.add_node nd0 }
      hndr (fun p hp => hcfg p (List.mem_cons_of_mem _ hp)) hfresh1
    rw [hstep]
    refine ⟨?_, ?_, ?_, ?_⟩
    · rw [iha, hn1, akeys_aset_of_not_amem _ hfr0]
      simp [akeys, List.append_assoc]
    · intro k hk
      have hk0 : ¬ k = k0 :=
        fun he => hk (he ▸ (List.mem_cons_self k0 (akeys rest)))
      have hkr : ¬ k ∈ akeys rest :=
        fun h => hk (List.mem_cons_of_mem k0 h)
      rw [ihb k hkr, hn1, alookup_aset_ne _ _ (fun h => hk0 h.symm)]
    · intro p hp
      rcases List.mem_cons.mp hp with h | h
      · subst h
        rw [ihb k0 hk0r, hn1, alookup_aset_self]
        exact hnd0.symm
      · exact ihc p h
    · intro hdeps
      refine ihd ?_
      intro q hq
      rw [hd1] at hq
      revert hq
      unfold aset
      by_cases hm : st.data_flow.dependencies.any (fun p => p.1 = k0)
      · rw [if_pos hm]
        intro hq
        obtain ⟨q0, hq0, hqe⟩ := List.mem_map.mp hq
        by_cases hq01 : q0.1 = k0
        · rw [← hqe]
          simp [hq01]
        · rw [← hqe]
          simpa [hq01] using hdeps q0 hq0
      · rw [if_neg hm]
        intro hq
        rcases List.mem_append.mp hq with h | h
        · exact hdeps q h
        · rw [List.mem_singleton.mp h]

theorem importDepsInner_spec (t0 : String) :
    ∀ (srcs : List String) (st : EngineState),
      srcs.Nodup →
      (∀ s ∈ srcs, amem st.data_flow.nodes s = true) →
      amem st.data_flow.nodes t0 = true →
      (∀ s ∈ srcs, ¬ s ∈ depsOf st.data_flow.dependencies t0) →
      (srcs.foldl (fun st2 source =>
          if amem st2.data_flow.nodes source && amem st2.data_flow.nodes t0 then
            match DataFlow.add_dependency st2.data_flow source t0 with
            | Except.ok df => { st2 with data_flow := df }
            | Except.error _ => st2
          else st2) st).data_flow.nodes = st.data_flow.nodes
      ∧ ∀ t, depsOf (srcs.foldl (fun st2 source =>
          if amem st2.data_flow.nodes source && amem st2.data_flow.nodes t0 then
            match DataFlow.add_dependency st2.data_flow source t0 with
            | Except.ok df => { st2 with data_flow := df }
            | Except.error _ => st2
          else st2) st).data_flow.dependencies t =
          (if t = t0 then depsOf st.data_flow.dependencies t ++ srcs
           else depsOf st.data_flow.dependencies t) := by
  intro srcs
  induction srcs with
  | nil =>
    intro st _ _ _ _
    exact ⟨rfl, fun t => by by_cases htt : t = t0 <;> simp [htt]⟩
  | cons s srcs2 ih =>
    intro st hnd hreg ht hfr
    obtain ⟨hsr, hnd2⟩ := List.nodup_cons.mp hnd
    have hs : amem st.data_flow.nodes s = true := hreg s (List.mem_cons_self _ _)
    obtain ⟨df2, hadd, hdfn, hdfdeps⟩ :=
      add_dependency_spec hs ht (hfr s (List.mem_cons_self _ _))
    have hcond : (amem st.data_flow.nodes s && amem st.data_flow.nodes t0) = true := by
      rw [hs, ht]
      rfl
    simp only [List.foldl_cons]
    rw [if_pos hcond, hadd]
    have hreg2 : ∀ s2 ∈ srcs2,
        amem ({ st with data_flow := df2 } : EngineState).data_flow.nodes s2 = true := by
      intro s2 hs2
      show amem df2.nodes s2 = true
      rw [hdfn]
      exact hreg s2 (List.mem_cons_of_mem _ hs2)
    have ht2 : amem ({ st with data_flow := df2 } : EngineState).data_flow.nodes t0
        = true := by
      show amem df2.nodes t0 = true
      rw [hdfn]
      exact ht
    have hfr2 : ∀ s2 ∈ srcs2,
        ¬ s2 ∈ depsOf ({ st with data_flow := df2 }
          : EngineState).data_flow.dependencies t0 := by
      intro s2 hs2 hmem
      have he : depsOf df2.dependencies t0 = depsOf st.data_flow.dependencies t0 ++ [s] := by
        have := hdfdeps t0
        rw [if_pos rfl] at this
        exact this
      have hmem2 : s2 ∈ depsOf st.data_flow.dependencies t0 ++ [s] := by
        rw [← he]
        exact hmem
      rcases List.mem_append.mp hmem2 with h | h
      · exact hfr s2 (List.mem_cons_of_mem _ hs2) h
      · exact hsr (List.mem_singleton.mp h ▸ hs2)
    obtain ⟨iha, ihb⟩ := ih { st with data_flow := df2 } hnd2 hreg2 ht2 hfr2
    constructor
    · rw [iha]
      exact hdfn
    · intro t
      rw [ihb t]
      by_cases htt : t = t0
      · subst htt
        rw [if_pos rfl, if_pos rfl]
        have he : depsOf ({ st with data_flow := df2 }
            : EngineState).data_flow.dependencies t
            = depsOf st.data_flow.dependencies t ++ [s] := by
          have := hdfdeps t
          rw [if_pos rfl] at this
          exact this
        rw [he, List.append_assoc]
        rfl
      · rw [if_neg htt, if_neg htt]
        have := hdfdeps t
        rw [if_neg htt] at this
        exact this

theorem importDepsFold_spec :
    ∀ (l : List (String × List String)) (st : EngineState),
      (akeys l).Nodup →
      (∀ p ∈ l, p.2.Nodup) →
      (∀ p ∈ l, amem st.data_flow.nodes p.1 = true
        ∧ ∀ s ∈ p.2, amem st.data_flow.nodes s = true) →
      (∀ p ∈ l, ∀ s ∈ p.2, ¬ s ∈ depsOf st.data_flow.dependencies p.1) →
      (importDepsFold l st).data_flow.nodes = st.data_flow.nodes
      ∧ ∀ t, depsOf (importDepsFold l st).data_flow.dependencies t =
          (match alookup l t with
           | some srcs => depsOf st.data_flow.dependencies t ++ srcs
           | Option.none => depsOf st.data_flow.dependencies t) := by
  intro l
  induction l with
  | nil =>
    intro st _ _ _ _
    exact ⟨rfl, fun t => by simp [importDepsFold, alookup]⟩
  | cons q0 rest ih =>
    obtain ⟨t0, srcs0⟩ := q0
    intro st hknd hsnodup hreg hfr
    obtain ⟨ht0r, hkndr⟩ := List.nodup_cons.mp (show (t0 :: akeys rest).Nodup from hknd)
    obtain ⟨hregt, hregs⟩ := hreg (t0, srcs0) (List.mem_cons_self _ _)
    obtain ⟨inner_nodes, inner_deps⟩ := importDepsInner_spec t0 srcs0 st
      (hsnodup _ (List.mem_cons_self _ _)) hregs hregt
      (hfr _ (List.mem_cons_self _ _))
    set st1 := srcs0.foldl (fun st2 source =>
        if amem st2.data_flow.nodes source && amem st2.data_flow.nodes t0 then
          match DataFlow.add_dependency st2.data_flow source t0 with
          | Except.ok df => { st2 with data_flow := df }
          | Except.error _ => st2
        else st2) st with hst1def
    have hstep : importDepsFold ((t0, srcs0) :: rest) st = importDepsFold rest st1 := by
      rw [hst1def]
      simp only [importDepsFold, List.foldl_cons]
    have hreg1 : ∀ p ∈ rest, amem st1.data_flow.nodes p.1 = true
        ∧ ∀ s ∈ p.2, amem st1.data_flow.nodes s = true := by
      intro p hp
      rw [inner_nodes]
      exact hreg p (List.mem_cons_of_mem _ hp)
    have hfr1 : ∀ p ∈ rest, ∀ s ∈ p.2,
        ¬ s ∈ depsOf st1.data_flow.dependencies p.1 := by
      intro p hp s hsp
      have hpt0 : ¬ p.1 = t0 :=
        fun he => ht0r (he ▸ List.mem_map_of_mem (fun p => p.1) hp)
      rw [inner_deps p.1, if_neg hpt0]
      exact hfr p (List.mem_cons_of_mem _ hp) s hsp
    obtain ⟨ihn, ihdeps⟩ := ih st1 hkndr
      (fun p hp => hsnodup p (List.mem_cons_of_mem _ hp)) hreg1 hfr1
    rw [hstep]
    constructor
    · rw [ihn]
      exact inner_nodes
    · intro t
      rw [ihdeps t, alookup_cons]
      by_cases htt : t0 = t
      · rw [if_pos htt]
        have htr : ¬ t ∈ akeys rest := htt ▸ ht0r
        have hnone : alookup rest t = Option.none := by
          apply alookup_eq_none_of_amem_false
          cases hmm : amem rest t
          · rfl
          · exact absurd ((mem_akeys_iff_amem rest t).mpr hmm) htr
        rw [hnone]
        rw [inner_deps t, if_pos htt.symm]
      · rw [if_neg htt]
        have hd : depsOf st1.data_flow.dependencies t
            = depsOf st.data_flow.dependencies t := by
          rw [inner_deps t, if_neg (fun h => htt h.symm)]
        rw [hd]

/-- C9: for every valid definition (registration invariant, and every
non-start node of a serializable class), exporting and importing the
exported configuration reproduces an isomorphic graph: `start_node` never
appears in the serialized node map and is re-created implicitly at the
head of the imported registry; the imported node names are exactly the
original non-start names; each reproduced node keeps its type,
tracked_variables, expected_input_schema, and logic_code (Logic and
Collection nodes) or condition (Gate nodes); and every node has exactly
the original dependency sources, in order. -/
theorem C9_export_import_roundtrip (st : EngineState)
    (hinv : DFInv st.data_flow)
    (hkinds : ∀ p ∈ st.data_flow.nodes, ¬ p.1 = "start_node" →
      ¬ p.2.kind = NodeKind.start) :
    ¬ "start_node" ∈ akeys (export_to_json st).nodes
    ∧ akeys (import_from_json (export_to_json st)).data_flow.nodes
        = "start_node"
          :: (akeys st.data_flow.nodes).filter (fun n => ¬ n = "start_node")
    ∧ (∀ k node, ¬ k = "start_node" →
        alookup st.data_flow.nodes k = some node →
        ∃ nd, alookup (import_from_json (export_to_json st)).data_flow.nodes k
            = some nd
          ∧ nd.name = k ∧ nd.kind = node.kind
          ∧ nd.tracked_variables = node.tracked_variables
          ∧ nd.expected_input_schema = node.expected_input_schema
          ∧ ((node.kind = NodeKind.logic ∨ node.kind = NodeKind.collection) →
              nd.logic_code = node.logic_code)
          ∧ (node.kind = NodeKind.gate → nd.condition = node.condition))
    ∧ (∀ t, depsOf (import_from_json (export_to_json st)).data_flow.dependencies t
        = depsOf st.data_flow.dependencies t) := by
  have hexp : (export_to_json st).nodes
      = (aerase st.data_flow.nodes "start_node").map
          (fun p => (p.1, nodeToConfig p.2)) := rfl
  have hakeysexp : akeys (export_to_json st).nodes
      = (akeys st.data_flow.nodes).filter (fun n => ¬ n = "start_node") := by
    rw [hexp, akeys_map_snd, akeys_aerase]
  have hc1 : ¬ "start_node" ∈ akeys (export_to_json st).nodes := by
    rw [hakeysexp]
    intro h
    have h2 := (List.mem_filter.mp h).2
    simp at h2
  have hndexp : (akeys (export_to_json st).nodes).Nodup := by
    rw [hakeysexp]
    exact hinv.keys_nodup.filter _
  have hmemexp : ∀ p ∈ (export_to_json st).nodes,
      ∃ q, q ∈ st.data_flow.nodes ∧ ¬ q.1 = "start_node"
        ∧ p = (q.1, nodeToConfig q.2) := by
    intro p hp
    rw [hexp] at hp
    obtain ⟨q, hq, hqe⟩ := List.mem_map.mp hp
    unfold aerase at hq
    obtain ⟨hqm, hqp⟩ := List.mem_filter.mp hq
    refine ⟨q, hqm, ?_, hqe.symm⟩
    simpa using hqp
  have hcfgexp : ∀ p ∈ (export_to_json st).nodes,
      ∃ nd, configToNode p.1 p.2 = some nd := by
    intro p hp
    obtain ⟨q, hqm, hq1, hpe⟩ := hmemexp p hp
    obtain ⟨nd, hnd, _⟩ := configToNode_nodeToConfig q.1 q.2 (hkinds q hqm hq1)
    rw [hpe]
    exact ⟨nd, hnd⟩
  have hfreshexp : ∀ p ∈ (export_to_json st).nodes,
      amem (RuleEngine.new (export_to_json st).name).data_flow.nodes p.1
        = false := by
    intro p hp
    obtain ⟨q, _, hq1, hpe⟩ := hmemexp p hp
    have hp1 : ¬ p.1 = "start_node" := by
      rw [hpe]
      exact hq1
    show amem [("start_node", startNode)] p.1 = false
    simp only [amem, List.any_cons, List.any_nil, Bool.or_false,
      decide_eq_false_iff_not]
    exact fun h => hp1 h.symm
  obtain ⟨pha, phb, phc, phd⟩ := importNodesFold_spec (export_to_json st).nodes
    (RuleEngine.new (export_to_json st).name) hndexp hcfgexp hfreshexp
  have hkeys1 : akeys (importNodesFold (export_to_json st).nodes
      (RuleEngine.new (export_to_json st).name)).data_flow.nodes
      = "start_node"
        :: (akeys st.data_flow.nodes).filter (fun n => ¬ n = "start_node") := by
    rw [pha, hakeysexp]
    rfl
  have hregall : ∀ x, x ∈ akeys st.data_flow.nodes →
      amem (importNodesFold (export_to_json st).nodes
        (RuleEngine.new (export_to_json st).name)).data_flow.nodes x = true := by
    intro x hx
    refine (mem_akeys_iff_amem _ _).mp ?_
    rw [hkeys1]
    by_cases hxs : x = "start_node"
    · rw [hxs]
      exact List.mem_cons_self _ _
    · exact List.mem_cons_of_mem _ (List.mem_filter.mpr ⟨hx, by simp [hxs]⟩)
  have hvals1 : ∀ q ∈ (importNodesFold (export_to_json st).nodes
      (RuleEngine.new (export_to_json st).name)).data_flow.dependencies,
      q.2 = ([] : List String) := by
    refine phd ?_
    intro q hq
    have hq2 : q = ("start_node", []) := by
      have : q ∈ [("start_node", ([] : List String))] := hq
      simpa using this
    rw [hq2]
  have hdeps1nil : ∀ t, depsOf (importNodesFold (export_to_json st).nodes
      (RuleEngine.new (export_to_json st).name)).data_flow.dependencies t = [] := by
    intro t
    cases halk : alookup (importNodesFold (export_to_json st).nodes
        (RuleEngine.new (export_to_json st).name)).data_flow.dependencies t with
    | none => simp [depsOf, halk]
    | some v =>
      have hv : v = [] := hvals1 (t, v) (alookup_mem halk)
      simp [depsOf, halk, hv]
  obtain ⟨p2n, p2d⟩ := importDepsFold_spec (export_to_json st).dependencies
    (importNodesFold (export_to_json st).nodes
      (RuleEngine.new (export_to_json st).name))
    hinv.dep_keys_nodup hinv.sources_nodup
    (fun p hp => ⟨hregall p.1 (hinv.dep_keys_registered p.1
        (List.mem_map_of_mem (fun p => p.1) hp)),
      fun s hs => hregall s (hinv.sources_registered p hp s hs)⟩)
    (fun p hp s hs => by
      rw [hdeps1nil p.1]
      exact List.not_mem_nil s)
  refine ⟨hc1, ?_, ?_, ?_⟩
  · rw [import_from_json_eq, p2n, hkeys1]
  · intro k node hks hlk
    have hexpk : alookup (export_to_json st).nodes k = some (nodeToConfig node) := by
      rw [hexp, alookup_map_snd, alookup_aerase_ne hks, hlk]
      rfl
    have hmem : (k, nodeToConfig node) ∈ (export_to_json st).nodes :=
      alookup_mem hexpk
    have hlk1 := phc (k, nodeToConfig node) hmem
    have hknode : ¬ node.kind = NodeKind.start :=
      hkinds (k, node) (alookup_mem hlk) hks
    obtain ⟨nd, hnd, hprops⟩ := configToNode_nodeToConfig k node hknode
    refine ⟨nd, ?_, hprops⟩
    rw [import_from_json_eq, p2n, hlk1]
    exact hnd
  · intro t
    rw [import_from_json_eq, p2d t]
    have hexpdeps : (export_to_json st).dependencies
        = st.data_flow.dependencies := rfl
    rw [hexpdeps]
    cases halk : alookup st.data_flow.dependencies t with
    | none =>
      rw [hdeps1nil t]
      simp [depsOf, halk]
    | some srcs =>
      rw [hdeps1nil t]
      simp [depsOf, halk]

/-- Witness for `C9_export_import_roundtrip`: the three-kind engine
round-trips with its start node excluded from the export, its node-name
list reproduced, and its dependency sources reproduced for every target. -/
theorem C9_export_import_roundtrip_witness :
    ¬ "start_node" ∈ akeys (export_to_json c9Engine).nodes
    ∧ akeys (import_from_json (export_to_json c9Engine)).data_flow.nodes
        = "start_node" :: (akeys c9Engine.data_flow.nodes).filter
            (fun n => ¬ n = "start_node")
    ∧ (∀ t, depsOf (import_from_json
          (export_to_json c9Engine)).data_flow.dependencies t
        = depsOf c9Engine.data_flow.dependencies t) := by
  have h := C9_export_import_roundtrip c9Engine
    ⟨by decide, by decide, by decide, by decide, by decide⟩ (by decide)
  exact ⟨h.1, h.2.1, h.2.2.2⟩

end FeatureFlow
